import Mathlib

/-!
# Verification of the document-generator unified workflow core

A shallow embedding, in Lean 4, of the session/checkpoint/workflow core of the
`document-generator` repository (`backend/doc_generator`), together with proofs
of the behavioural properties claimed by its specification.

Conventions:
* Python dicts whose keys are statically known are modelled as structures whose
  fields are `Option`-valued when the corresponding key may be absent; `get`
  with a default becomes `Option.getD`.
* External collaborators (hash functions from `hashlib`, the JSON codec of the
  standard library, storage/parser/LLM/TTS services) are modelled either as
  function parameters or as executable Lean models of their documented
  behaviour.
* Python exceptions become `Except`/`Option` results.
-/

namespace DocGen

/-! ## Python string helpers -/

/-- The whitespace characters stripped by Python `str.strip()`. -/
def isPyWs (c : Char) : Bool :=
  c = ' ' || c = '\t' || c = '\n' || c = '\r' || c = '\x0b' || c = '\x0c'

/-- Characters of Python `str.strip()` (both ends). -/
def pyStripChars (l : List Char) : List Char :=
  ((l.dropWhile isPyWs).reverse.dropWhile isPyWs).reverse

/-- Python `str.strip()`. -/
def pyStrip (s : String) : String :=
  String.mk (pyStripChars s.toList)

/-- `n` occurs as a contiguous run inside `l`. -/
def hasSub (n : List Char) : List Char → Bool
  | [] => n.isPrefixOf []
  | c :: t => n.isPrefixOf (c :: t) || hasSub n t

/-- Python substring containment `needle in hay`. -/
def containsSub (needle hay : String) : Bool :=
  hasSub needle.toList hay.toList

/-- Python `str.lower()` (ASCII model). -/
def pyLower (s : String) : String :=
  s.map Char.toLower

/-! ## JSON string escaping (model of the `json` standard library)

`json.dumps` escapes quotes, backslashes and common control characters inside
string values; `json.loads` undoes those escapes.  These are external standard
library collaborators of the repository; we model the escape/unescape pair
executably. -/

/-- Escaping applied by `json.dumps` to the characters of a string value. -/
def escChars : List Char → List Char
  | [] => []
  | c :: cs =>
    if c = '\"' then '\\' :: '\"' :: escChars cs
    else if c = '\\' then '\\' :: '\\' :: escChars cs
    else if c = '\n' then '\\' :: 'n' :: escChars cs
    else if c = '\t' then '\\' :: 't' :: escChars cs
    else if c = '\r' then '\\' :: 'r' :: escChars cs
    else if c = '\x08' then '\\' :: 'b' :: escChars cs
    else if c = '\x0c' then '\\' :: 'f' :: escChars cs
    else c :: escChars cs

/-- The escape codes accepted by `json.loads` after a backslash. -/
def unescapeChar (d : Char) : Option Char :=
  if d = '\"' then some '\"'
  else if d = '\\' then some '\\'
  else if d = '/' then some '/'
  else if d = 'n' then some '\n'
  else if d = 't' then some '\t'
  else if d = 'r' then some '\r'
  else if d = 'b' then some '\x08'
  else if d = 'f' then some '\x0c'
  else none

/-- Parse the body of a JSON string (after the opening quote) up to and
including the closing quote, returning the unescaped characters and the
remaining input. -/
def parseStrBody : List Char → Option (List Char × List Char)
  | [] => none
  | '\"' :: rest => some ([], rest)
  | '\\' :: [] => none
  | '\\' :: d :: rest2 =>
    match unescapeChar d with
    | none => none
    | some u => (parseStrBody rest2).map (fun p => (u :: p.1, p.2))
  | c :: rest => (parseStrBody rest).map (fun p => (c :: p.1, p.2))

/-! ## `CheckpointManager.generate_session_id`
(`backend/doc_generator/application/checkpoint_manager.py`)

A source item is a dict with a `"type"` key and (depending on the type) a
`"file_id"`, `"url"` or `"content"` key; those are the keys the method reads
and the variants of the spec's `SourceDescriptor`.  `json.dumps(x,
sort_keys=True)` serializes such a dict with its keys in alphabetical order
(`content < file_id < type < url`), with `", "`/`": "` separators and string
escaping; we reproduce that serialization exactly for string-valued fields. -/

structure SourceDict where
  type : Option String := none
  file_id : Option String := none
  url : Option String := none
  content : Option String := none
  parser : Option String := none
deriving DecidableEq

/-- The key/value pairs of the dict, in the alphabetical key order used by
`json.dumps(..., sort_keys=True)`. -/
def srcPairs (s : SourceDict) : List (String × String) :=
  (match s.content with | some v => [("content", v)] | none => []) ++
    (match s.file_id with | some v => [("file_id", v)] | none => []) ++
      (match s.parser with | some v => [("parser", v)] | none => []) ++
        (match s.type with | some v => [("type", v)] | none => []) ++
          (match s.url with | some v => [("url", v)] | none => [])

/-- Serialization of one `"key": "value"` member. -/
def pairChars (p : String × String) : List Char :=
  '\"' :: escChars p.1.toList ++ '\"' :: ':' :: ' ' :: '\"' ::
    escChars p.2.toList ++ ['\"']

/-- Serialization of the members of an object, `", "`-separated. -/
def bodyChars : List (String × String) → List Char
  | [] => []
  | p :: ps =>
    pairChars p ++ (match ps with | [] => [] | _ :: _ => ',' :: ' ' :: bodyChars ps)

/-- `json.dumps(src, sort_keys=True)` for a source dict. -/
def json_dumps_sorted (s : SourceDict) : String :=
  String.mk ('\x7b' :: bodyChars (srcPairs s) ++ ['\x7d'])

/-- Value of a key in a member list (first match), as `json` would report it. -/
def getField (k : String) (ps : List (String × String)) : Option String :=
  (ps.find? (fun p => p.1 == k)).map (·.2)

/-- The normalization loop body of `generate_session_id`: a dict is rendered
`file:<file_id>`, `url:<url>` or `text:<md5-prefix of content>` according to
its `"type"`; any other type contributes nothing.  `md5_16` abstracts
`hashlib.md5(...).hexdigest()[:16]`. -/
def normalizeSource (md5_16 : String → String) (s : SourceDict) : Option String :=
  let t := s.type.getD ""
  if t = "file" then some ("file:" ++ s.file_id.getD "")
  else if t = "url" then some ("url:" ++ s.url.getD "")
  else if t = "text" then some ("text:" ++ md5_16 (s.content.getD ""))
  else none

/-- `CheckpointManager.generate_session_id`.  `sorted(sources, key=lambda x:
json.dumps(x, sort_keys=True))` is the canonicalizing sort; `sha256_24`
abstracts `hashlib.sha256(...).hexdigest()[:24]`. -/
def generate_session_id (md5_16 sha256_24 : String → String)
    (sources : List SourceDict) (user_id : Option String) : String :=
  let sortedSources :=
    sources.mergeSort (fun a b => decide (json_dumps_sorted a ≤ json_dumps_sorted b))
  let normalized := sortedSources.filterMap (normalizeSource md5_16)
  let contentStr := String.intercalate "|" normalized
  let contentStr2 :=
    match user_id with
    | some u => if u = "" then contentStr else contentStr ++ "|user:" ++ u
    | none => contentStr
  "session_" ++ sha256_24 contentStr2

/-! ## Document-branch retry supervision
(`backend/doc_generator/application/unified_workflow.py`, `_should_retry_document`
and the `doc_generate_output → doc_validate_output → {retry, end}` wiring)

Only the fields `_should_retry_document` reads are carried: the `errors` list
and `metadata["_retry_count"]` (read with default `0`, so represented as a
`Nat` that starts at `0`).  The `generate_output` and `validate_output` node
bodies are external to this decision and appear as function parameters. -/

/-- Modelled from the spec: `get_settings().generator.max_retries`
(`infrastructure/settings.py` is not part of the snapshot); the spec fixes the
default at 3. -/
def defaultMaxRetries : Nat := 3

structure DocRetryState where
  errors : List String := []
  retryCount : Nat := 0
deriving DecidableEq

/-- Whether the last error is of the retryable class tested by
`_should_retry_document`. -/
def retryableLast (st : DocRetryState) : Bool :=
  containsSub "Generation failed" (st.errors.getLast?.getD "") ||
    containsSub "Validation failed" (st.errors.getLast?.getD "")

/-- `_should_retry_document`: returns the chosen edge label together with the
state (which it mutates when scheduling a retry). -/
def should_retry_document (maxRetries : Nat) (st : DocRetryState) :
    String × DocRetryState :=
  if st.errors = [] then ("end", st)
  else if maxRetries ≤ st.retryCount then ("end", st)
  else if retryableLast st then
    ("retry", { st with retryCount := st.retryCount + 1 })
  else ("end", st)

/-- The retry cycle of the document branch:
`doc_generate_output → doc_validate_output → _should_retry_document`, looping
back to `doc_generate_output` on `"retry"` and stopping on `"end"`.  `fuel`
bounds the unrolling; the result is the number of `generate_output`
invocations paired with the final state. -/
def runDocBranch (gen val : DocRetryState → DocRetryState) (maxRetries : Nat) :
    Nat → DocRetryState → Nat × DocRetryState
  | 0, st => (0, st)
  | fuel + 1, st =>
    let decision := should_retry_document maxRetries (val (gen st))
    if decision.1 = "retry" then
      let rec2 := runDocBranch gen val maxRetries fuel decision.2
      (rec2.1 + 1, rec2.2)
    else (1, decision.2)

/-! ## Unified workflow state and shared source-preparation nodes
(`backend/doc_generator/application/nodes/{validate_sources, resolve_sources,
extract_sources, merge_sources}.py` and `backend/doc_generator/utils/source_utils.py`)

Only the state keys these nodes read or write are carried.  The logging
helpers (`log_node_start`, `log_node_end`, `log_metric`, step-number
resolution) write to an external sink and never change the state, so they
vanish in the embedding.  Filesystem/storage/parser/LLM collaborators are
function parameters. -/

structure RequestDataU where
  sources : List SourceDict := []
  prompt : Option String := none
  provider : Option String := none
  model : Option String := none
deriving DecidableEq

/-- A resolved source dict produced by `resolve_sources_node` (one of the
`file` / `url` / `text` shapes; unused keys default to empty). -/
structure ResolvedSource where
  type : String := ""
  file_path : String := ""
  file_id : String := ""
  url : String := ""
  parser : Option String := none
  content : String := ""
deriving DecidableEq

structure ContentBlock where
  title : String := ""
  source : String := ""
  content : String := ""
deriving DecidableEq

/-- The metadata keys touched by the shared nodes. -/
structure MetadataU where
  skip_source_processing : Bool := false
  skip_source_reason : String := ""
  reused_content : Bool := false
  source_count : Nat := 0
  file_id : Option String := none
deriving DecidableEq

structure UState where
  output_type : String := ""
  request_data : RequestDataU := {}
  api_key : String := ""
  raw_content : String := ""
  input_path : String := ""
  errors : List String := []
  metadata : MetadataU := {}
  resolved_sources : List ResolvedSource := []
  resolved_file_id : Option String := none
  content_blocks : List ContentBlock := []
deriving DecidableEq

/-- `source_utils.should_skip_source_processing`. -/
def should_skip_source_processing (st : UState) : Bool :=
  st.metadata.skip_source_processing

/-- `source_utils.skip_source_reason`. -/
def skip_source_reason (st : UState) : String :=
  st.metadata.skip_source_reason

/-- `source_utils.set_skip_source_processing`. -/
def set_skip_source_processing (st : UState) (reason : String) : UState :=
  { st with metadata :=
      { st.metadata with skip_source_processing := true, skip_source_reason := reason } }

/-- Modelled from the spec: `is_document_type` lives in the missing
`unified_state.py`; the document output types are the four keys of
`format_mapping` in `unified_workflow.py`. -/
def is_document_type (ot : String) : Bool :=
  ot = "article_pdf" || ot = "article_markdown" || ot = "slide_deck_pdf" ||
    ot = "presentation_pptx"

/-- Modelled from the spec: `requires_content_extraction` lives in the missing
`unified_state.py`.  Document, podcast, mindmap and image-generation requests
run source preparation (`validate_sources_node` handles the
empty-source/direct-prompt case of `image_generate` explicitly); image edits
do not. -/
def requires_content_extraction (ot : String) : Bool :=
  is_document_type ot || ot = "podcast" || ot = "mindmap" || ot = "image_generate"

/-- The basename of a POSIX path (`Path(p).name`). -/
def pyBasename (p : String) : String :=
  String.mk ((p.toList.reverse.takeWhile (fun c => c ≠ '/')).reverse)

/-- `Path(p).suffix`: the extension of the final component, empty when the
basename has no dot or only a leading dot. -/
def pyPathSuffix (p : String) : String :=
  let revBase := (pyBasename p).toList.reverse
  let extRev := revBase.takeWhile (fun c => c ≠ '.')
  let rest := revBase.dropWhile (fun c => c ≠ '.')
  if rest.length ≤ 1 then "" else String.mk ('.' :: extRev.reverse)

/-- Python `a or b` for an optional string `a`. -/
def pyOrStr (a : Option String) (b : String) : String :=
  match a with
  | some s => if s = "" then b else s
  | none => b

/-- The trailing branch of `validate_sources_node` (fresh states):
no sources plus a direct prompt on `image_generate` proceeds with skip
`direct_prompt`; no sources otherwise records an error and skips
`no_sources`; otherwise the state passes through. -/
def validate_sources_main (st : UState) : UState :=
  let direct_prompt := pyStrip (st.request_data.prompt.getD "")
  if st.request_data.sources = [] then
    if st.output_type = "image_generate" ∧ direct_prompt ≠ "" then
      set_skip_source_processing st "direct_prompt"
    else
      set_skip_source_processing
        { st with errors := st.errors ++ ["No sources provided"] } "no_sources"
  else st

/-- `validate_sources_node`; `pathExists` abstracts `Path(...).exists()`. -/
def validate_sources_node (pathExists : String → Bool) (st : UState) : UState :=
  if ¬ requires_content_extraction st.output_type then
    set_skip_source_processing st "not_required"
  else if st.metadata.reused_content ∧ st.raw_content ≠ "" then
    if is_document_type st.output_type then
      if st.input_path ≠ "" ∧ pathExists st.input_path then
        set_skip_source_processing st "reused_content"
      else validate_sources_main st
    else set_skip_source_processing st "reused_content"
  else validate_sources_main st

/-- The source loop of `resolve_sources_node`; `resolvePath` abstracts
`resolve_upload_path(StorageService(), file_id)`. -/
def resolveLoop (resolvePath : String → Option String) (st : UState) :
    List SourceDict → List ResolvedSource → Option String → UState
  | [], acc, fid =>
    let st1 := { st with resolved_sources := acc }
    match fid with
    | some f => { st1 with resolved_file_id := some f }
    | none => st1
  | src :: rest, acc, fid =>
    let t := src.type.getD ""
    if t = "file" then
      let current := src.file_id.getD ""
      if current = "" then resolveLoop resolvePath st rest acc fid
      else
        let fid2 := match fid with | none => some current | some f => some f
        match resolvePath current with
        | none => resolveLoop resolvePath st rest acc fid2
        | some path =>
          if pyLower (pyPathSuffix path) = ".xlsx" ∨ pyLower (pyPathSuffix path) = ".xls" then
            set_skip_source_processing
              { st with errors := st.errors ++ ["Excel files are not supported."] }
              "unsupported_format"
          else
            resolveLoop resolvePath st rest
              (acc ++ [{ type := "file", file_path := path, file_id := current }]) fid2
    else if t = "url" then
      let url := src.url.getD ""
      if url = "" then resolveLoop resolvePath st rest acc fid
      else
        resolveLoop resolvePath st rest
          (acc ++ [{ type := "url", url := url, parser := src.parser }]) fid
    else if t = "text" then
      let content := src.content.getD ""
      if pyStrip content ≠ "" then
        resolveLoop resolvePath st rest
          (acc ++ [{ type := "text", content := pyStrip content }]) fid
      else resolveLoop resolvePath st rest acc fid
    else resolveLoop resolvePath st rest acc fid

/-- `resolve_sources_node`.  (The `except` branch of the source is
unreachable here because the storage collaborator is modelled as total.) -/
def resolve_sources_node (resolvePath : String → Option String) (st : UState) : UState :=
  if should_skip_source_processing st then st
  else resolveLoop resolvePath st st.request_data.sources [] none

/-- `source_utils.detect_format`: file extension to `ContentFormat` value. -/
def detect_format (p : String) : String :=
  let suffix := pyLower (pyPathSuffix p)
  if suffix = ".pdf" then "pdf"
  else if suffix = ".md" then "md"
  else if suffix = ".markdown" then "md"
  else if suffix = ".txt" then "txt"
  else if suffix = ".docx" then "docx"
  else if suffix = ".pptx" then "pptx"
  else if suffix = ".html" then "html"
  else "txt"

/-- The source loop of `extract_sources_node`.  `imageExtract path provider
model key`, `fileParse format path` and `webParse parser url` abstract
`extract_image_content`, `get_parser(...).parse` and `WebParser(...).parse`;
each returns extracted content plus the optional metadata title. -/
def extractBlocks (isImageFile : String → Bool)
    (imageExtract : String → String → String → String → String × Option String)
    (fileParse : String → String → String × Option String)
    (webParse : Option String → String → String × Option String)
    (providerName model apiKey : String) : List ResolvedSource → List ContentBlock
  | [] => []
  | src :: rest =>
    let tail := extractBlocks isImageFile imageExtract fileParse webParse
      providerName model apiKey rest
    if src.type = "file" then
      if src.file_path = "" then tail
      else
        let pm :=
          if isImageFile src.file_path then
            imageExtract src.file_path providerName model apiKey
          else fileParse (detect_format src.file_path) src.file_path
        if pm.1 ≠ "" then
          { title := pyOrStr pm.2 (pyBasename src.file_path),
            source := src.file_path, content := pm.1 } :: tail
        else tail
    else if src.type = "url" then
      if src.url = "" then tail
      else
        let pm := webParse src.parser src.url
        if pm.1 ≠ "" then
          { title := pyOrStr pm.2 src.url, source := src.url, content := pm.1 } :: tail
        else tail
    else if src.type = "text" then
      if pyStrip src.content ≠ "" then
        { title := "Copied Text", source := "text", content := pyStrip src.content } :: tail
      else tail
    else tail

/-- `extract_sources_node`.  (The `except` branch of the source is
unreachable here because the parser collaborators are modelled as total.) -/
def extract_sources_node (isImageFile : String → Bool)
    (imageExtract : String → String → String → String → String × Option String)
    (fileParse : String → String → String × Option String)
    (webParse : Option String → String → String × Option String)
    (st : UState) : UState :=
  if should_skip_source_processing st then st
  else
    let provider := st.request_data.provider.getD "gemini"
    let model := st.request_data.model.getD "gemini-2.5-flash"
    let providerName :=
      if pyLower provider = "google" then "gemini" else pyLower provider
    let blocks := extractBlocks isImageFile imageExtract fileParse webParse
      providerName model st.api_key st.resolved_sources
    if blocks = [] then
      set_skip_source_processing
        { st with errors := st.errors ++ ["No valid sources provided"] }
        "no_valid_sources"
    else
      { st with content_blocks := blocks,
                metadata := { st.metadata with source_count := blocks.length } }

/-- `source_utils.merge_markdown_sources`. -/
def merge_markdown_sources (blocks : List ContentBlock) : String :=
  String.intercalate "\n\n---\n\n" (blocks.map fun b =>
    let header := "## Source: " ++ b.title
    let header2 :=
      if b.source ≠ "" ∧ b.source ≠ "text" then header ++ "\n\nSource: " ++ b.source
      else header
    header2 ++ "\n\n" ++ b.content)

/-- `merge_sources_node`; `writeTempMarkdown` abstracts
`source_utils.write_temp_markdown` (content in, temp path out). -/
def merge_sources_node (writeTempMarkdown : String → String) (st : UState) : UState :=
  if should_skip_source_processing st then st
  else if st.content_blocks = [] then st
  else
    let merged :=
      if is_document_type st.output_type then merge_markdown_sources st.content_blocks
      else
        String.intercalate "\n\n---\n\n"
          ((st.content_blocks.map (fun b => pyStrip b.content)).filter (fun c => c ≠ ""))
    let st1 := { st with raw_content := merged }
    let st2 :=
      if is_document_type st.output_type then
        { st1 with input_path := writeTempMarkdown merged }
      else st1
    let st3 :=
      match st2.resolved_file_id with
      | some f =>
        { st2 with resolved_file_id := none,
                   metadata := { st2.metadata with file_id := some f } }
      | none => st2
    { st3 with content_blocks := [], resolved_sources := [] }

/-! ## The graph wired by `build_unified_workflow`
(`backend/doc_generator/application/unified_workflow.py`)

The `add_node` / `set_entry_point` / `add_edge` / `add_conditional_edges`
calls of `build_unified_workflow`, transcribed as data.  `"END"` stands for
LangGraph's `END` sentinel. -/

def unifiedWorkflowNodes : List String :=
  ["extract_sources", "doc_detect_format", "doc_parse_content",
   "doc_transform_content", "doc_enhance_content", "doc_generate_images",
   "doc_describe_images", "doc_persist_images", "doc_generate_output",
   "doc_validate_output", "podcast_generate_script", "podcast_synthesize_audio",
   "mindmap_generate", "image_generate", "image_edit"]

def unifiedWorkflowEntryPoint : String := "extract_sources"

def unifiedWorkflowEdges : List (String × String) :=
  [("doc_detect_format", "doc_parse_content"),
   ("doc_parse_content", "doc_transform_content"),
   ("doc_transform_content", "doc_enhance_content"),
   ("doc_enhance_content", "doc_generate_images"),
   ("doc_generate_images", "doc_describe_images"),
   ("doc_describe_images", "doc_persist_images"),
   ("doc_persist_images", "doc_generate_output"),
   ("doc_generate_output", "doc_validate_output"),
   ("podcast_generate_script", "podcast_synthesize_audio"),
   ("podcast_synthesize_audio", "END"),
   ("mindmap_generate", "END"),
   ("image_generate", "END"),
   ("image_edit", "END")]

def unifiedWorkflowConditionalEdges : List (String × List (String × String)) :=
  [("extract_sources",
    [("document", "doc_detect_format"), ("podcast", "podcast_generate_script"),
     ("mindmap", "mindmap_generate"), ("image_generate", "image_generate"),
     ("image_edit", "image_edit")]),
   ("doc_validate_output", [("retry", "doc_generate_output"), ("end", "END")])]

/-! ## Checkpoint reuse in `run_unified_workflow_with_session`
(`backend/doc_generator/application/unified_workflow.py`)

The embedding covers the reuse decision and the construction/injection of the
initial state.  `checkpointer.get(config)` is a collaborator: the outer
`Option` models a missing checkpoint, the inner one a missing/empty
`channel_values` dict (both falsy in the source's `if checkpoint and
checkpoint.get("channel_values")`). -/

/-- The content-bearing checkpoint fields read back from `channel_values`. -/
structure ChannelVals where
  raw_content : String := ""
  structured_content : String := ""
  enhanced_content : String := ""
  input_path : String := ""
  input_format : String := ""
  source_count : Option Nat := none
deriving DecidableEq

/-- The `initial_state` dict built by `run_unified_workflow_with_session`
(metadata keys `session_id`/`reused_content`/`source_count` inlined). -/
structure InitState where
  output_type : String := ""
  request_data : RequestDataU := {}
  api_key : String := ""
  gemini_api_key : String := ""
  user_id : String := ""
  input_path : String := ""
  input_format : String := ""
  raw_content : String := ""
  structured_content : String := ""
  enhanced_content : String := ""
  output_path : String := ""
  errors : List String := []
  session_id : String := ""
  reused_content : Bool := false
  source_count : Option Nat := none
  completed : Bool := false
deriving DecidableEq

/-- The `has_existing_content` flag: under `reuse_content`, a checkpoint with
truthy `channel_values` whose `raw_content` is non-empty. -/
def has_existing_content (reuse_content : Bool)
    (checkpoint : Option (Option ChannelVals)) : Bool :=
  if reuse_content then
    match checkpoint with
    | some (some cv) => cv.raw_content ≠ ""
    | _ => false
  else false

/-- The `existing_state` binding of the same code path. -/
def existing_state_of (reuse_content : Bool)
    (checkpoint : Option (Option ChannelVals)) : Option ChannelVals :=
  if reuse_content then
    match checkpoint with
    | some (some cv) => some cv
    | _ => none
  else none

/-- The initial-state construction of `run_unified_workflow_with_session`,
including the cached-content injection. -/
def run_unified_workflow_initial_state (output_type : String)
    (request_data : RequestDataU) (api_key : String)
    (gemini_api_key : Option String) (user_id : Option String)
    (session_id : String) (reuse_content : Bool)
    (checkpoint : Option (Option ChannelVals)) : InitState :=
  let has := has_existing_content reuse_content checkpoint
  let base : InitState :=
    { output_type := output_type, request_data := request_data,
      api_key := api_key, gemini_api_key := pyOrStr gemini_api_key api_key,
      user_id := pyOrStr user_id "", input_path := "", input_format := "",
      raw_content := "", structured_content := "", enhanced_content := "",
      output_path := "", errors := [], session_id := session_id,
      reused_content := has, source_count := none, completed := false }
  match existing_state_of reuse_content checkpoint with
  | some ex =>
    if has then
      { base with raw_content := ex.raw_content,
                  structured_content := ex.structured_content,
                  enhanced_content := ex.enhanced_content,
                  input_path := ex.input_path,
                  input_format := ex.input_format,
                  source_count := some (ex.source_count.getD 1) }
    else base
  | none => base

/-! ## `synthesize_with_retry`
(`backend/doc_generator/utils/podcast_utils.py`)

The Gemini TTS client is a collaborator: `provider n` is the outcome of the
`n`-th `generate_content` call (`.ok audio` or the string of the raised
exception); `random.uniform(0, 0.5)` is a collaborator too, abstracted as the
`jitter` sequence.  The trace records how many provider calls were made, the
sleeps performed, and the final outcome (`.error e` = the exception
re-raised). -/

/-- The retryable-error test of `synthesize_with_retry`:
`any(p in str(e).lower() for p in ["500", "internal", "overload",
"unavailable"])`. -/
def isRetryableTTSError (e : String) : Bool :=
  containsSub "500" (pyLower e) || containsSub "internal" (pyLower e) ||
    containsSub "overload" (pyLower e) || containsSub "unavailable" (pyLower e)

structure TTSTrace where
  calls : Nat
  sleeps : List ℚ
  result : Except String String

/-- The backoff delay `(2 ** attempt) * (1 + random.uniform(0, 0.5))`. -/
def ttsDelay (jitter : Nat → ℚ) (attempt : Nat) : ℚ :=
  2 ^ attempt * (1 + jitter attempt)

/-- The `for attempt in range(max_retries)` loop of `synthesize_with_retry`:
success returns the audio; a retryable error with attempts remaining sleeps
and continues; any other error is re-raised at once.  The fuel-0 outcome is
the fall-through `RuntimeError` (reachable only when `max_retries = 0`). -/
def synthLoop (provider : Nat → Except String String) (jitter : Nat → ℚ)
    (maxRetries : Nat) : Nat → Nat → TTSTrace
  | 0, _ => ⟨0, [], .error "TTS generation failed unexpectedly"⟩
  | fuel + 1, attempt =>
    match provider attempt with
    | .ok audio => ⟨1, [], .ok audio⟩
    | .error e =>
      if isRetryableTTSError e ∧ attempt < maxRetries - 1 then
        let t := synthLoop provider jitter maxRetries fuel (attempt + 1)
        ⟨t.calls + 1, ttsDelay jitter attempt :: t.sleeps, t.result⟩
      else ⟨1, [], .error e⟩

/-- `synthesize_with_retry` (default `max_retries = 3` as in the source). -/
def synthesize_with_retry (provider : Nat → Except String String)
    (jitter : Nat → ℚ) (maxRetries : Nat := 3) : TTSTrace :=
  synthLoop provider jitter maxRetries maxRetries 0

/-! ## JSON values, the `json` codec, and the tolerant extractor
(`_extract_json` in `application/nodes/mindmap_nodes.py` and the identical
`extract_json` in `utils/podcast_utils.py`)

The `json` standard library is an external collaborator; we model it
executably: `dumpJson` is `json.dumps` (`", "`/`": "` separators, string
escaping) and `jsonLoads` is `json.loads` (strict grammar, one document,
no trailing data).  Numbers are modelled as integers. -/

mutual
inductive Json where
  | null : Json
  | bool (b : Bool) : Json
  | num (n : Int) : Json
  | str (s : List Char) : Json
  | arr (xs : JsonArr) : Json
  | obj (kvs : JsonObj) : Json
inductive JsonArr where
  | nil : JsonArr
  | cons (hd : Json) (tl : JsonArr) : JsonArr
inductive JsonObj where
  | nil : JsonObj
  | cons (k : List Char) (v : Json) (tl : JsonObj) : JsonObj
end

def digitChar (d : Nat) : Char := Char.ofNat (48 + d)

/-- Decimal digits of a natural number (`str(n)` for `n : Nat`). -/
def natChars (n : Nat) : List Char :=
  if n < 10 then [digitChar n]
  else natChars (n / 10) ++ [digitChar (n % 10)]
decreasing_by exact Nat.div_lt_self (by omega) (by omega)

/-- `str(n)` for an integer. -/
def intChars (n : Int) : List Char :=
  if n < 0 then '-' :: natChars n.natAbs else natChars n.natAbs

mutual
/-- `json.dumps` on a value. -/
def dumpJson : Json → List Char
  | .null => 'n' :: 'u' :: 'l' :: 'l' :: []
  | .bool true => 't' :: 'r' :: 'u' :: 'e' :: []
  | .bool false => 'f' :: 'a' :: 'l' :: 's' :: 'e' :: []
  | .num n => intChars n
  | .str s => '\"' :: escChars s ++ ['\"']
  | .arr xs => '[' :: dumpArrInner xs ++ [']']
  | .obj kvs => '\x7b' :: dumpObjInner kvs ++ ['\x7d']
/-- The characters between the brackets of a dumped array. -/
def dumpArrInner : JsonArr → List Char
  | .nil => []
  | .cons v tl => dumpJson v ++ dumpArrTail tl
/-- `", item"` repetitions after an array's first item. -/
def dumpArrTail : JsonArr → List Char
  | .nil => []
  | .cons v tl => ',' :: ' ' :: dumpJson v ++ dumpArrTail tl
/-- The characters between the braces of a dumped object. -/
def dumpObjInner : JsonObj → List Char
  | .nil => []
  | .cons k v tl =>
    '\"' :: escChars k ++ '\"' :: ':' :: ' ' :: dumpJson v ++ dumpObjTail tl
/-- `", \"key\": value"` repetitions after an object's first member. -/
def dumpObjTail : JsonObj → List Char
  | .nil => []
  | .cons k v tl =>
    ',' :: ' ' :: '\"' :: escChars k ++ '\"' :: ':' :: ' ' :: dumpJson v ++
      dumpObjTail tl
end

mutual
/-- Fuel bound for parsing a value (every parser step consumes one unit;
sibling calls run at the same fuel level, whence the `max`). -/
def jsize : Json → Nat
  | .null | .bool _ | .num _ | .str _ => 1
  | .arr xs => 1 + asize xs
  | .obj kvs => 1 + osize kvs
def asize : JsonArr → Nat
  | .nil => 1
  | .cons v tl => 1 + max (jsize v) (asize tl)
def osize : JsonObj → Nat
  | .nil => 1
  | .cons _ v tl => 1 + max (jsize v) (osize tl)
end

/-- The whitespace skipped by the strict JSON scanner. -/
def isJsonWs (c : Char) : Bool :=
  c = ' ' || c = '\t' || c = '\n' || c = '\r'

def skipWs (cs : List Char) : List Char := cs.dropWhile isJsonWs

def digitVal (c : Char) : Nat := c.toNat - 48

def digitsToNat (ds : List Char) : Nat :=
  ds.foldl (fun a c => a * 10 + digitVal c) 0

/-- Parse a JSON number (integer grammar). -/
def parseNum : List Char → Option (Int × List Char)
  | '-' :: rest =>
    match rest.takeWhile Char.isDigit, rest.dropWhile Char.isDigit with
    | [], _ => none
    | ds, rest2 => some (-(digitsToNat ds : Int), rest2)
  | cs =>
    match cs.takeWhile Char.isDigit, cs.dropWhile Char.isDigit with
    | [], _ => none
    | ds, rest2 => some ((digitsToNat ds : Int), rest2)

mutual
/-- Parse one JSON value (strict `json.loads` grammar, integer numbers). -/
def parseValue : Nat → List Char → Option (Json × List Char)
  | 0, _ => none
  | fuel + 1, cs =>
    match skipWs cs with
    | [] => none
    | c :: rest =>
      if c = '\x7b' then
        (parseObjRest fuel rest).map (fun p => (Json.obj p.1, p.2))
      else if c = '[' then
        (parseArrRest fuel rest).map (fun p => (Json.arr p.1, p.2))
      else if c = '\"' then
        (parseStrBody rest).map (fun p => (Json.str p.1, p.2))
      else if c = '-' || c.isDigit then
        (parseNum (c :: rest)).map (fun p => (Json.num p.1, p.2))
      else if (c :: rest).take 4 = ['t', 'r', 'u', 'e'] then
        some (.bool true, rest.drop 3)
      else if (c :: rest).take 5 = ['f', 'a', 'l', 's', 'e'] then
        some (.bool false, rest.drop 4)
      else if (c :: rest).take 4 = ['n', 'u', 'l', 'l'] then
        some (.null, rest.drop 3)
      else none
/-- Parse the members of an object, right after its `\x7b`. -/
def parseObjRest : Nat → List Char → Option (JsonObj × List Char)
  | 0, _ => none
  | fuel + 1, cs =>
    match skipWs cs with
    | [] => none
    | c :: rest =>
      if c = '\x7d' then some (.nil, rest)
      else if c = '\"' then
        match parseStrBody rest with
        | none => none
        | some (k, rest2) =>
          match skipWs rest2 with
          | ':' :: rest3 =>
            match parseValue fuel rest3 with
            | none => none
            | some (v, rest4) =>
              match parseMembersTail fuel rest4 with
              | none => none
              | some (tl, rest5) => some (.cons k v tl, rest5)
          | _ => none
      else none
/-- Parse `, "key": value` repetitions up to the closing `\x7d`. -/
def parseMembersTail : Nat → List Char → Option (JsonObj × List Char)
  | 0, _ => none
  | fuel + 1, cs =>
    match skipWs cs with
    | [] => none
    | c :: rest =>
      if c = '\x7d' then some (.nil, rest)
      else if c = ',' then
        match skipWs rest with
        | '\"' :: rest2 =>
          match parseStrBody rest2 with
          | none => none
          | some (k, rest3) =>
            match skipWs rest3 with
            | ':' :: rest4 =>
              match parseValue fuel rest4 with
              | none => none
              | some (v, rest5) =>
                match parseMembersTail fuel rest5 with
                | none => none
                | some (tl, rest6) => some (.cons k v tl, rest6)
            | _ => none
        | _ => none
      else none
/-- Parse the items of an array, right after its `[`. -/
def parseArrRest : Nat → List Char → Option (JsonArr × List Char)
  | 0, _ => none
  | fuel + 1, cs =>
    match skipWs cs with
    | [] => none
    | c :: rest =>
      if c = ']' then some (.nil, rest)
      else
        match parseValue fuel (c :: rest) with
        | none => none
        | some (v, rest2) =>
          match parseItemsTail fuel rest2 with
          | none => none
          | some (tl, rest3) => some (.cons v tl, rest3)
/-- Parse `, item` repetitions up to the closing `]`. -/
def parseItemsTail : Nat → List Char → Option (JsonArr × List Char)
  | 0, _ => none
  | fuel + 1, cs =>
    match skipWs cs with
    | [] => none
    | c :: rest =>
      if c = ']' then some (.nil, rest)
      else if c = ',' then
        match parseValue fuel rest with
        | none => none
        | some (v, rest2) =>
          match parseItemsTail fuel rest2 with
          | none => none
          | some (tl, rest3) => some (.cons v tl, rest3)
      else none
end

/-- `json.loads`: parse one document, allow trailing whitespace only. -/
def jsonLoads (cs : List Char) : Option Json :=
  match parseValue (cs.length + 1) cs with
  | some (v, rest) => if skipWs rest = [] then some v else none
  | none => none

/-- The inner `_parse_candidate` helper of the extractor:
`json.loads` followed by the `isinstance(parsed, dict)` filter. -/
def parse_candidate (cs : List Char) : Option Json :=
  match jsonLoads cs with
  | some (Json.obj kvs) => some (Json.obj kvs)
  | _ => none

def fenceJsonChars : List Char := ['\x60', '\x60', '\x60', 'j', 's', 'o', 'n']

def fence3Chars : List Char := ['\x60', '\x60', '\x60']

/-- Split at the first `\x7b` (`cleaned.find("\x7b")`): prefix without braces
and suffix starting at the brace, if any. -/
def splitAtFirstBrace : List Char → Option (List Char × List Char)
  | [] => none
  | c :: rest =>
    if c = '\x7b' then some ([], c :: rest)
    else
      match splitAtFirstBrace rest with
      | none => none
      | some (pre, suf) => some (c :: pre, suf)

/-- The balanced-brace scan of the extractor, started at the first `\x7b`:
tracks depth, string state and escape state exactly as the Python loop does
(`acc` holds the scanned characters in reverse); returns the candidate slice
when the depth returns to zero, and nothing if the input ends first. -/
def braceScan : List Char → Int → Bool → Bool → List Char → Option (List Char)
  | [], _, _, _, _ => none
  | c :: rest, depth, inStr, esc, acc =>
    if esc then braceScan rest depth inStr false (c :: acc)
    else if c = '\\' then braceScan rest depth inStr true (c :: acc)
    else if c = '\"' then braceScan rest depth (!inStr) false (c :: acc)
    else if inStr then braceScan rest depth inStr false (c :: acc)
    else if c = '\x7b' then braceScan rest (depth + 1) inStr false (c :: acc)
    else if c = '\x7d' then
      if depth - 1 = 0 then some (c :: acc).reverse
      else braceScan rest (depth - 1) inStr false (c :: acc)
    else braceScan rest depth inStr false (c :: acc)

/-- The `cleaned` string of the extractor: strip, remove a leading
```` ```json ````/```` ``` ```` fence marker and a trailing ```` ``` ````,
strip again. -/
def cleanedChars (l : List Char) : List Char :=
  let cleaned0 := pyStripChars l
  let cleaned1 :=
    if cleaned0.take 7 = fenceJsonChars then cleaned0.drop 7
    else if cleaned0.take 3 = fence3Chars then cleaned0.drop 3
    else cleaned0
  let cleaned2 :=
    if cleaned1.drop (cleaned1.length - 3) = fence3Chars then
      cleaned1.take (cleaned1.length - 3)
    else cleaned1
  pyStripChars cleaned2

/-- `_extract_json` / `extract_json`: direct parse, then fenced-code-block
stripping, then the balanced-brace scan; every parse goes through the
dict-only `_parse_candidate`. -/
def extract_json (text : String) : Option Json :=
  if text = "" then none
  else
    match parse_candidate text.toList with
    | some o => some o
    | none =>
      let cleaned := cleanedChars text.toList
      match parse_candidate cleaned with
      | some o => some o
      | none =>
        match splitAtFirstBrace cleaned with
        | none => none
        | some (_, suf) =>
          match braceScan suf 0 false false [] with
          | none => none
          | some candidate => parse_candidate candidate

/-! ### Decimal digits -/

def digitChars : List Char := ['0', '1', '2', '3', '4', '5', '6', '7', '8', '9']

/-- Whether the remaining input cannot extend a number token. -/
def restOk (cs : List Char) : Prop :=
  match cs with
  | [] => True
  | c :: _ => c.isDigit = false

def upperChars : List Char :=
  ['A', 'B', 'C', 'D', 'E', 'F', 'G', 'H', 'I', 'J', 'K', 'L', 'M', 'N', 'O',
   'P', 'Q', 'R', 'S', 'T', 'U', 'V', 'W', 'X', 'Y', 'Z']

/-! ### The extractor on prose-wrapped fenced JSON -/

def nl4Chars : List Char := ['\n', '\x60', '\x60', '\x60']

def fence8Chars : List Char := ['\x60', '\x60', '\x60', 'j', 's', 'o', 'n', '\n']

/-- The characters acceptable in the surrounding prose: letters, spaces,
newlines and common punctuation — no braces, brackets, quotes, backticks or
digits. -/
def allowedProseChar (c : Char) : Bool :=
  c.isAlpha || c = ' ' || c = '\n' || c = ',' || c = '.' || c = '!' ||
    c = '?' || c = ':' || c = ';' || c = '-' || c = '(' || c = ')'

/-- A piece of prose: non-empty, starts with an uppercase letter, consists of
allowed prose characters, and ends with a letter. -/
def proseOk (s : String) : Bool :=
  match s.toList with
  | [] => false
  | c :: _ =>
    decide (c ∈ upperChars) && s.toList.all allowedProseChar &&
      (match s.toList.getLast? with
       | some d => d.isAlpha
       | none => false)

/-! ## Theorems -/

theorem parseStrBody_escChars (cs rest : List Char) :
    parseStrBody (escChars cs ++ '\"' :: rest) = some (cs, rest) := by
  induction cs with
  | nil => simp [escChars, parseStrBody]
  | cons c cs ih =>
    by_cases h1 : c = '\"'
    · subst h1; simp [escChars, parseStrBody, unescapeChar, ih]
    · by_cases h2 : c = '\\'
      · subst h2; simp [escChars, parseStrBody, unescapeChar, ih]
      · by_cases h3 : c = '\n'
        · subst h3; simp [escChars, parseStrBody, unescapeChar, ih]
        · by_cases h4 : c = '\t'
          · subst h4; simp [escChars, parseStrBody, unescapeChar, ih]
          · by_cases h5 : c = '\r'
            · subst h5; simp [escChars, parseStrBody, unescapeChar, ih]
            · by_cases h6 : c = '\x08'
              · subst h6; simp [escChars, parseStrBody, unescapeChar, ih]
              · by_cases h7 : c = '\x0c'
                · subst h7; simp [escChars, parseStrBody, unescapeChar, ih]
                · simp [escChars, parseStrBody, h1, h2, h3, h4, h5, h6, h7, ih]

theorem string_toList_inj {a b : String} (h : a.toList = b.toList) : a = b := by
  cases a; cases b; simp only [String.toList] at h; subst h; rfl

theorem pairChars_cancel {p q : String × String} {r1 r2 : List Char}
    (h : pairChars p ++ r1 = pairChars q ++ r2) : p = q ∧ r1 = r2 := by
  unfold pairChars at h
  simp only [List.cons_append, List.append_assoc, List.nil_append,
    List.cons.injEq, true_and] at h
  -- extract the key equality by running the string parser over both sides
  have hk := congrArg parseStrBody h
  rw [parseStrBody_escChars, parseStrBody_escChars] at hk
  simp only [Option.some.injEq, Prod.mk.injEq, List.cons.injEq, true_and] at hk
  obtain ⟨hk1, hrest⟩ := hk
  have hv := congrArg parseStrBody hrest
  rw [parseStrBody_escChars, parseStrBody_escChars] at hv
  simp only [Option.some.injEq, Prod.mk.injEq, List.cons.injEq, true_and] at hv
  obtain ⟨hv1, hr⟩ := hv
  refine ⟨?_, hr⟩
  cases p; cases q
  simp only [Prod.mk.injEq]
  exact ⟨string_toList_inj hk1, string_toList_inj hv1⟩

theorem bodyChars_cancel :
    ∀ (ps qs : List (String × String)) (r1 r2 : List Char),
      bodyChars ps ++ '\x7d' :: r1 = bodyChars qs ++ '\x7d' :: r2 →
      ps = qs ∧ r1 = r2 := by
  intro ps
  induction ps with
  | nil =>
    intro qs r1 r2 h
    cases qs with
    | nil => simpa [bodyChars] using h
    | cons q qs2 =>
      exfalso
      simp only [bodyChars, List.nil_append] at h
      unfold pairChars at h
      simp only [List.cons_append, List.append_assoc, List.cons.injEq] at h
      exact absurd h.1 (by decide)
  | cons p ps2 ih =>
    intro qs r1 r2 h
    cases qs with
    | nil =>
      exfalso
      simp only [bodyChars, List.nil_append] at h
      unfold pairChars at h
      simp only [List.cons_append, List.append_assoc, List.cons.injEq] at h
      exact absurd h.1 (by decide)
    | cons q qs2 =>
      simp only [bodyChars, List.append_assoc] at h
      obtain ⟨hpq, htail⟩ := pairChars_cancel h
      subst hpq
      cases ps2 with
      | nil =>
        cases qs2 with
        | nil => simpa using htail
        | cons q2 qs3 => simp at htail
      | cons p2 ps3 =>
        cases qs2 with
        | nil => simp at htail
        | cons q2 qs3 =>
          simp only [List.cons_append, List.cons.injEq, true_and] at htail
          obtain ⟨h1, h2⟩ := ih (q2 :: qs3) r1 r2 htail
          exact ⟨by rw [h1], h2⟩

theorem getField_content (s : SourceDict) :
    getField "content" (srcPairs s) = s.content := by
  obtain ⟨t, f, u, c, pr⟩ := s
  cases t <;> cases f <;> cases u <;> cases c <;> cases pr <;> simp [srcPairs, getField]

theorem getField_file_id (s : SourceDict) :
    getField "file_id" (srcPairs s) = s.file_id := by
  obtain ⟨t, f, u, c, pr⟩ := s
  cases t <;> cases f <;> cases u <;> cases c <;> cases pr <;> simp [srcPairs, getField]

theorem getField_type (s : SourceDict) :
    getField "type" (srcPairs s) = s.type := by
  obtain ⟨t, f, u, c, pr⟩ := s
  cases t <;> cases f <;> cases u <;> cases c <;> cases pr <;> simp [srcPairs, getField]

theorem getField_url (s : SourceDict) :
    getField "url" (srcPairs s) = s.url := by
  obtain ⟨t, f, u, c, pr⟩ := s
  cases t <;> cases f <;> cases u <;> cases c <;> cases pr <;> simp [srcPairs, getField]

theorem getField_parserOpt (s : SourceDict) :
    getField "parser" (srcPairs s) = s.parser := by
  obtain ⟨t, f, u, c, pr⟩ := s
  cases t <;> cases f <;> cases u <;> cases c <;> cases pr <;> simp [srcPairs, getField]

theorem srcPairs_inj {s t : SourceDict} (h : srcPairs s = srcPairs t) : s = t := by
  have hc := (getField_content s).symm.trans ((congrArg (getField "content") h).trans (getField_content t))
  have hf := (getField_file_id s).symm.trans ((congrArg (getField "file_id") h).trans (getField_file_id t))
  have ht := (getField_type s).symm.trans ((congrArg (getField "type") h).trans (getField_type t))
  have hu := (getField_url s).symm.trans ((congrArg (getField "url") h).trans (getField_url t))
  have hp := (getField_parserOpt s).symm.trans ((congrArg (getField "parser") h).trans (getField_parserOpt t))
  cases s; cases t
  simp_all

theorem json_dumps_sorted_inj {s t : SourceDict}
    (h : json_dumps_sorted s = json_dumps_sorted t) : s = t := by
  unfold json_dumps_sorted at h
  have h2 : '\x7b' :: bodyChars (srcPairs s) ++ ['\x7d'] =
      '\x7b' :: bodyChars (srcPairs t) ++ ['\x7d'] := congrArg String.toList h
  simp only [List.cons_append, List.cons.injEq, true_and] at h2
  exact srcPairs_inj (bodyChars_cancel _ _ [] [] h2).1

theorem mergeSort_key_perm_eq {l1 l2 : List SourceDict} (h : l1.Perm l2) :
    l1.mergeSort (fun a b => decide (json_dumps_sorted a ≤ json_dumps_sorted b)) =
      l2.mergeSort (fun a b => decide (json_dumps_sorted a ≤ json_dumps_sorted b)) := by
  haveI : IsAntisymm SourceDict (fun a b => json_dumps_sorted a ≤ json_dumps_sorted b) :=
    ⟨fun _ _ h1 h2 => json_dumps_sorted_inj (le_antisymm h1 h2)⟩
  set le := fun a b : SourceDict => decide (json_dumps_sorted a ≤ json_dumps_sorted b) with hle
  have htrans : ∀ a b c : SourceDict, le a b → le b c → le a c := by
    intro a b c hab hbc
    simp only [hle, decide_eq_true_eq] at *
    exact le_trans hab hbc
  have htotal : ∀ a b : SourceDict, le a b || le b a := by
    intro a b
    simp only [hle, Bool.or_eq_true, decide_eq_true_eq]
    exact le_total _ _
  have hperm : (l1.mergeSort le).Perm (l2.mergeSort le) :=
    (List.mergeSort_perm l1 le).trans (h.trans (List.mergeSort_perm l2 le).symm)
  have hs1 := List.sorted_mergeSort htrans htotal l1
  have hs2 := List.sorted_mergeSort htrans htotal l2
  refine List.eq_of_perm_of_sorted
      (r := fun a b : SourceDict => json_dumps_sorted a ≤ json_dumps_sorted b)
      hperm ?_ ?_ <;>
    · refine List.Pairwise.imp ?_ (by assumption)
      intro a b hab
      simpa [hle, decide_eq_true_eq] using hab

/-- C1: the session key is invariant under permutation of the source list. -/
theorem C1_generate_session_id_perm_invariant
    (md5_16 sha256_24 : String → String) (sources sources2 : List SourceDict)
    (user_id : Option String) (h : sources.Perm sources2) :
    generate_session_id md5_16 sha256_24 sources user_id =
      generate_session_id md5_16 sha256_24 sources2 user_id := by
  unfold generate_session_id
  rw [mergeSort_key_perm_eq h]

/-- Witness for C1 at a concrete two-element source list and its swap. -/
theorem C1_witness :
    ([⟨some "text", none, none, some "alpha", none⟩,
        ⟨some "url", none, some "https://x", none, none⟩] : List SourceDict).Perm
      [⟨some "url", none, some "https://x", none, none⟩,
        ⟨some "text", none, none, some "alpha", none⟩] ∧
    generate_session_id id id
        [⟨some "text", none, none, some "alpha", none⟩,
          ⟨some "url", none, some "https://x", none, none⟩] none =
      generate_session_id id id
        [⟨some "url", none, some "https://x", none, none⟩,
          ⟨some "text", none, none, some "alpha", none⟩] none :=
  ⟨by decide, C1_generate_session_id_perm_invariant id id _ _ none (by decide)⟩

/-- C5: case analysis of the retry decision after `validate_output`. -/
theorem C5_should_retry_document_cases (maxRetries : Nat) (st : DocRetryState) :
    (st.errors = [] → should_retry_document maxRetries st = ("end", st)) ∧
    (st.errors ≠ [] → maxRetries ≤ st.retryCount →
      should_retry_document maxRetries st = ("end", st)) ∧
    (st.errors ≠ [] → st.retryCount < maxRetries → retryableLast st = true →
      should_retry_document maxRetries st =
        ("retry", { st with retryCount := st.retryCount + 1 })) ∧
    (st.errors ≠ [] → st.retryCount < maxRetries → retryableLast st = false →
      should_retry_document maxRetries st = ("end", st)) := by
  refine ⟨fun h => ?_, fun h1 h2 => ?_, fun h1 h2 h3 => ?_, fun h1 h2 h3 => ?_⟩
  · simp [should_retry_document, h]
  · simp [should_retry_document, h1, h2]
  · simp [should_retry_document, h1, Nat.not_le.mpr h2, h3]
  · simp [should_retry_document, h1, Nat.not_le.mpr h2, h3]

/-- Witness for C5: a retryable failure with a fresh counter loops back. -/
theorem C5_witness :
    should_retry_document 3 ⟨["Generation failed"], 0⟩ =
      ("retry", ⟨["Generation failed"], 1⟩) :=
  (C5_should_retry_document_cases 3 ⟨["Generation failed"], 0⟩).2.2.1
    (by decide) (by decide) (by decide)

theorem runDocBranch_count (gen val : DocRetryState → DocRetryState)
    (maxRetries : Nat)
    (hgenErr : ∀ s, (gen s).errors ≠ [] ∧ retryableLast (gen s) = true)
    (hgenRc : ∀ s, (gen s).retryCount = s.retryCount)
    (hval : ∀ s, val s = s) :
    ∀ fuel st, st.retryCount ≤ maxRetries →
      maxRetries + 1 - st.retryCount ≤ fuel →
      (runDocBranch gen val maxRetries fuel st).1 =
        maxRetries + 1 - st.retryCount ∧
      (runDocBranch gen val maxRetries fuel st).2.errors ≠ [] := by
  intro fuel
  induction fuel with
  | zero => intro st h1 h2; omega
  | succ fuel ih =>
    intro st h1 h2
    have hge := hgenErr st
    have hrc2 : (gen st).retryCount = st.retryCount := hgenRc st
    by_cases hmax : maxRetries ≤ (gen st).retryCount
    · have hdec : should_retry_document maxRetries (val (gen st)) = ("end", gen st) := by
        rw [hval]
        unfold should_retry_document
        rw [if_neg hge.1, if_pos hmax]
      simp only [runDocBranch, hdec, if_neg (show ¬("end" : String) = "retry" by decide)]
      refine ⟨?_, hge.1⟩
      show 1 = maxRetries + 1 - st.retryCount
      omega
    · have hdec : should_retry_document maxRetries (val (gen st)) =
          ("retry", { gen st with retryCount := (gen st).retryCount + 1 }) := by
        rw [hval]
        unfold should_retry_document
        rw [if_neg hge.1, if_neg hmax, if_pos hge.2]
      have hle : ({ gen st with retryCount := (gen st).retryCount + 1 } :
          DocRetryState).retryCount ≤ maxRetries := by
        show (gen st).retryCount + 1 ≤ maxRetries
        omega
      have hfu : maxRetries + 1 - ({ gen st with
          retryCount := (gen st).retryCount + 1 } : DocRetryState).retryCount ≤ fuel := by
        show maxRetries + 1 - ((gen st).retryCount + 1) ≤ fuel
        omega
      have ih2 := ih { gen st with retryCount := (gen st).retryCount + 1 } hle hfu
      simp only [runDocBranch, hdec, if_pos (show ("retry" : String) = "retry" from rfl)]
      refine ⟨?_, ih2.2⟩
      show (runDocBranch gen val maxRetries fuel
        { gen st with retryCount := (gen st).retryCount + 1 }).1 + 1 =
          maxRetries + 1 - st.retryCount
      have ih2a : (runDocBranch gen val maxRetries fuel
          { gen st with retryCount := (gen st).retryCount + 1 }).1 =
          maxRetries + 1 - ((gen st).retryCount + 1) := ih2.1
      rw [ih2a]
      omega

/-- C2: if every pass of `generate_output` leaves a retryable last error (and
`validate_output` passes the state through), the branch invokes
`generate_output` exactly `max_retries + 1` times — 4 under the default of 3 —
and the final state's `errors` is non-empty. -/
theorem C2_retry_bound (gen val : DocRetryState → DocRetryState)
    (maxRetries : Nat)
    (hgenErr : ∀ s, (gen s).errors ≠ [] ∧ retryableLast (gen s) = true)
    (hgenRc : ∀ s, (gen s).retryCount = s.retryCount)
    (hval : ∀ s, val s = s)
    (st0 : DocRetryState) (h0 : st0.retryCount = 0)
    (fuel : Nat) (hf : maxRetries + 1 ≤ fuel) :
    (runDocBranch gen val maxRetries fuel st0).1 = maxRetries + 1 ∧
    (runDocBranch gen val maxRetries fuel st0).2.errors ≠ [] ∧
    (maxRetries = defaultMaxRetries →
      (runDocBranch gen val maxRetries fuel st0).1 = 4) := by
  have h := runDocBranch_count gen val maxRetries hgenErr hgenRc hval fuel st0
    (by omega) (by omega)
  refine ⟨by rw [h.1]; omega, h.2, fun hd => by rw [h.1, h0, hd]; decide⟩

theorem retryableLast_genFailed (n : Nat) :
    retryableLast ⟨["Generation failed"], n⟩ = true :=
  (by decide : retryableLast ⟨["Generation failed"], 0⟩ = true)

/-- Witness for C2: with a generator that always reports `Generation failed`,
the default configuration performs 4 generation attempts and ends in error. -/
theorem C2_witness :
    (runDocBranch (fun s => ⟨["Generation failed"], s.retryCount⟩) id 3 4 ⟨[], 0⟩).1 = 4 ∧
    (runDocBranch (fun s => ⟨["Generation failed"], s.retryCount⟩) id 3 4 ⟨[], 0⟩).2.errors ≠ [] := by
  have h := C2_retry_bound (fun s => ⟨["Generation failed"], s.retryCount⟩) id 3
    (fun s => ⟨List.cons_ne_nil _ _, retryableLast_genFailed s.retryCount⟩)
    (fun s => rfl) (fun s => rfl) ⟨[], 0⟩ rfl 4 (by decide)
  exact ⟨h.1, h.2.1⟩

/-- C4: once a skip flag is set, the later shared nodes are pass-through
no-ops: they return the state — `content_blocks`, `raw_content` and all
other fields — unchanged. -/
theorem C4_skip_propagation_frame (resolvePath : String → Option String)
    (isImageFile : String → Bool)
    (imageExtract : String → String → String → String → String × Option String)
    (fileParse : String → String → String × Option String)
    (webParse : Option String → String → String × Option String)
    (writeTempMarkdown : String → String) (st : UState)
    (h1 : st.metadata.skip_source_processing = true)
    (h2 : st.metadata.skip_source_reason ≠ "not_required") :
    resolve_sources_node resolvePath st = st ∧
    extract_sources_node isImageFile imageExtract fileParse webParse st = st ∧
    merge_sources_node writeTempMarkdown st = st := by
  refine ⟨?_, ?_, ?_⟩ <;>
    simp [resolve_sources_node, extract_sources_node, merge_sources_node,
      should_skip_source_processing, h1]

/-- Witness for C4 at a concrete skipped state. -/
theorem C4_witness :
    resolve_sources_node (fun _ => none)
        { output_type := "podcast",
          metadata := { skip_source_processing := true,
                        skip_source_reason := "no_sources" } } =
      { output_type := "podcast",
        metadata := { skip_source_processing := true,
                      skip_source_reason := "no_sources" } } ∧
    extract_sources_node (fun _ => false) (fun _ _ _ _ => ("", none))
        (fun _ _ => ("", none)) (fun _ _ => ("", none))
        { output_type := "podcast",
          metadata := { skip_source_processing := true,
                        skip_source_reason := "no_sources" } } =
      { output_type := "podcast",
        metadata := { skip_source_processing := true,
                      skip_source_reason := "no_sources" } } ∧
    merge_sources_node (fun _ => "")
        { output_type := "podcast",
          metadata := { skip_source_processing := true,
                        skip_source_reason := "no_sources" } } =
      { output_type := "podcast",
        metadata := { skip_source_processing := true,
                      skip_source_reason := "no_sources" } } :=
  C4_skip_propagation_frame (fun _ => none) (fun _ => false)
    (fun _ _ _ _ => ("", none)) (fun _ _ => ("", none)) (fun _ _ => ("", none))
    (fun _ => "")
    { output_type := "podcast",
      metadata := { skip_source_processing := true,
                    skip_source_reason := "no_sources" } }
    rfl (by decide)

theorem is_document_type_ne_image_generate {ot : String}
    (h : is_document_type ot = true) : ot ≠ "image_generate" := by
  intro he
  subst he
  simp [is_document_type] at h

/-- C7 (counterexample): a state whose checkpoint content is being reused
(`metadata.reused_content` with non-empty `raw_content`) has an empty source
list, a content-extraction output type and no prompt, yet
`validate_sources_node` neither appends `"No sources provided"` nor sets
skip reason `no_sources` — it sets `reused_content` instead. -/
theorem C7_counterexample :
    ¬ ((validate_sources_node (fun _ => false)
          { output_type := "podcast", request_data := { sources := [] },
            raw_content := "cached",
            metadata := { reused_content := true } }).errors =
        ["No sources provided"] ∧
      (validate_sources_node (fun _ => false)
          { output_type := "podcast", request_data := { sources := [] },
            raw_content := "cached",
            metadata := { reused_content := true } }).metadata.skip_source_reason =
        "no_sources") ∧
    (validate_sources_node (fun _ => false)
        { output_type := "podcast", request_data := { sources := [] },
          raw_content := "cached",
          metadata := { reused_content := true } }).metadata.skip_source_reason =
      "reused_content" := by
  decide

/-- C7 (amended): for every state with an empty source list in which the
checkpoint-reuse early return does not apply, a content-extraction output
type (document/podcast/mindmap) with no non-blank prompt gets exactly one
appended error `"No sources provided"` and skip reason `no_sources`, while
`image_generate` with a non-blank prompt gets no error and skip reason
`direct_prompt`. -/
theorem C7_no_sources_guard (pathExists : String → Bool) (st : UState)
    (hempty : st.request_data.sources = [])
    (hfresh : ¬ (st.metadata.reused_content = true ∧ st.raw_content ≠ "")) :
    ((is_document_type st.output_type = true ∨ st.output_type = "podcast" ∨
        st.output_type = "mindmap") →
      pyStrip (st.request_data.prompt.getD "") = "" →
      validate_sources_node pathExists st =
        set_skip_source_processing
          { st with errors := st.errors ++ ["No sources provided"] } "no_sources") ∧
    (st.output_type = "image_generate" →
      pyStrip (st.request_data.prompt.getD "") ≠ "" →
      validate_sources_node pathExists st =
        set_skip_source_processing st "direct_prompt") := by
  constructor
  · intro hty hprompt
    have hreq : requires_content_extraction st.output_type = true := by
      rcases hty with h | h | h <;> simp [requires_content_extraction, h]
    have hne : st.output_type ≠ "image_generate" := by
      rcases hty with h | h | h
      · exact is_document_type_ne_image_generate h
      · rw [h]; decide
      · rw [h]; decide
    unfold validate_sources_node
    rw [if_neg (by simp [hreq]), if_neg hfresh]
    unfold validate_sources_main
    rw [if_pos hempty, if_neg (by simp [hne])]
  · intro hty hprompt
    have hreq : requires_content_extraction st.output_type = true := by
      simp [requires_content_extraction, hty]
    unfold validate_sources_node
    rw [if_neg (by simp [hreq]), if_neg hfresh]
    unfold validate_sources_main
    rw [if_pos hempty, if_pos ⟨hty, hprompt⟩]

/-- Witness for C7 (amended) at a fresh podcast request without sources. -/
theorem C7_witness :
    validate_sources_node (fun _ => false)
        { output_type := "podcast", request_data := { sources := [] } } =
      set_skip_source_processing
        { output_type := "podcast", request_data := { sources := [] },
          errors := ["No sources provided"] } "no_sources" := by
  have h := (C7_no_sources_guard (fun _ => false)
    { output_type := "podcast", request_data := { sources := [] } }
    rfl (by decide)).1 (Or.inr (Or.inl rfl)) rfl
  exact h

/-- C3: the graph built by `build_unified_workflow` contains no
`validate_sources`, `resolve_sources` or `merge_sources` node: its entry
point is `extract_sources`, whose conditional edges route directly to the
output branches.  Consequently a fresh request reaches
`extract_sources_node` with no `resolved_sources` (only
`resolve_sources_node`, absent from the graph, populates them) and every
fresh run ends with the error `"No valid sources provided"` — here evaluated
on a one-text-source mindmap request. -/
theorem C3_shared_chain_not_wired :
    unifiedWorkflowEntryPoint = "extract_sources" ∧
    "validate_sources" ∉ unifiedWorkflowNodes ∧
    "resolve_sources" ∉ unifiedWorkflowNodes ∧
    "merge_sources" ∉ unifiedWorkflowNodes ∧
    (∀ e ∈ unifiedWorkflowEdges, e.2 ≠ "extract_sources") ∧
    unifiedWorkflowConditionalEdges.map Prod.fst =
      ["extract_sources", "doc_validate_output"] ∧
    (extract_sources_node (fun _ => false) (fun _ _ _ _ => ("", none))
        (fun _ _ => ("", none)) (fun _ _ => ("", none))
        { output_type := "mindmap",
          request_data :=
            { sources := [⟨some "text", none, none, some "Alpha", none⟩] } }).errors =
      ["No valid sources provided"] := by
  decide

/-- C8: the reuse decision is exactly "reuse enabled and the stored
checkpoint's `raw_content` is non-empty"; it is recorded as
`metadata.reused_content`, never consults the request's source set, and
triggers injection of the cached content fields. -/
theorem C8_reuse_decision (output_type : String)
    (request_data request_data2 : RequestDataU) (api_key : String)
    (gemini_api_key : Option String) (user_id : Option String)
    (session_id : String) (reuse_content : Bool)
    (checkpoint : Option (Option ChannelVals)) :
    ((run_unified_workflow_initial_state output_type request_data api_key
        gemini_api_key user_id session_id reuse_content checkpoint).reused_content =
        true ↔
      (reuse_content = true ∧
        ∃ cv, checkpoint = some (some cv) ∧ cv.raw_content ≠ "")) ∧
    ((run_unified_workflow_initial_state output_type request_data api_key
        gemini_api_key user_id session_id reuse_content checkpoint).reused_content =
      (run_unified_workflow_initial_state output_type request_data2 api_key
        gemini_api_key user_id session_id reuse_content checkpoint).reused_content) ∧
    (∀ cv, checkpoint = some (some cv) → cv.raw_content ≠ "" →
      reuse_content = true →
      (run_unified_workflow_initial_state output_type request_data api_key
          gemini_api_key user_id session_id reuse_content checkpoint).raw_content =
        cv.raw_content ∧
      (run_unified_workflow_initial_state output_type request_data api_key
          gemini_api_key user_id session_id reuse_content checkpoint).input_path =
        cv.input_path) := by
  refine ⟨?_, ?_, ?_⟩
  · cases reuse_content <;> rcases checkpoint with _ | (_ | cv) <;>
      first
        | (by_cases h : cv.raw_content = "" <;>
            simp_all [run_unified_workflow_initial_state, has_existing_content,
              existing_state_of])
        | simp [run_unified_workflow_initial_state, has_existing_content,
            existing_state_of]
  · cases reuse_content <;> rcases checkpoint with _ | (_ | cv) <;>
      first
        | (by_cases h : cv.raw_content = "" <;>
            simp_all [run_unified_workflow_initial_state, has_existing_content,
              existing_state_of])
        | simp [run_unified_workflow_initial_state, has_existing_content,
            existing_state_of]
  · intro cv hc hraw hreuse
    subst hc; subst hreuse
    simp [run_unified_workflow_initial_state, has_existing_content,
      existing_state_of, hraw]

/-- Witness for C8: with a cached checkpoint holding `raw_content = "cached"`,
the cached content is injected into the initial state. -/
theorem C8_witness :
    (run_unified_workflow_initial_state "podcast"
        { sources := [⟨some "text", none, none, some "other", none⟩] } "key"
        none none "session_x" true
        (some (some { raw_content := "cached" }))).raw_content = "cached" :=
  ((C8_reuse_decision "podcast"
      { sources := [⟨some "text", none, none, some "other", none⟩] }
      { sources := [] } "key" none none "session_x" true
      (some (some { raw_content := "cached" }))).2.2
    { raw_content := "cached" } rfl (by decide) rfl).1

theorem synthLoop_spec (provider : Nat → Except String String)
    (jitter : Nat → ℚ) (maxRetries : Nat) :
    ∀ fuel attempt, attempt + fuel = maxRetries →
      (synthLoop provider jitter maxRetries fuel attempt).calls ≤ fuel ∧
      (1 ≤ fuel → 1 ≤ (synthLoop provider jitter maxRetries fuel attempt).calls) ∧
      (∀ k, k + 1 < (synthLoop provider jitter maxRetries fuel attempt).calls →
        ∃ e, provider (attempt + k) = .error e ∧ isRetryableTTSError e = true) ∧
      (1 ≤ fuel →
        (synthLoop provider jitter maxRetries fuel attempt).result =
          provider (attempt +
            ((synthLoop provider jitter maxRetries fuel attempt).calls - 1))) ∧
      (synthLoop provider jitter maxRetries fuel attempt).sleeps =
        (List.range ((synthLoop provider jitter maxRetries fuel attempt).calls - 1)).map
          (fun i => ttsDelay jitter (attempt + i)) := by
  intro fuel
  induction fuel with
  | zero =>
    intro attempt _
    refine ⟨le_refl _, by omega, fun k hk => by simp [synthLoop] at hk, by omega, by
      simp [synthLoop]⟩
  | succ fuel ih =>
    intro attempt heq
    match hp : provider attempt with
    | .ok audio =>
      refine ⟨?_, ?_, ?_, ?_, ?_⟩ <;>
        simp [synthLoop, hp] <;> omega
    | .error e =>
      by_cases hcond : isRetryableTTSError e = true ∧ attempt < maxRetries - 1
      · have hfuel1 : 1 ≤ fuel := by omega
        have ih2 := ih (attempt + 1) (by omega)
        obtain ⟨ihc, ihc1, ihk, ihr, ihs⟩ := ih2
        have hc1 : 1 ≤ (synthLoop provider jitter maxRetries fuel (attempt + 1)).calls :=
          ihc1 hfuel1
        refine ⟨?_, ?_, ?_, ?_, ?_⟩
        · simp only [synthLoop, hp, if_pos hcond]
          omega
        · intro _
          simp only [synthLoop, hp, if_pos hcond]
          omega
        · intro k hk
          simp only [synthLoop, hp, if_pos hcond] at hk
          match k with
          | 0 => exact ⟨e, by simpa using hp, hcond.1⟩
          | j + 1 =>
            have hj := ihk j (by omega)
            obtain ⟨e2, he2, hre2⟩ := hj
            refine ⟨e2, ?_, hre2⟩
            have : attempt + (j + 1) = attempt + 1 + j := by omega
            rw [this]
            exact he2
        · intro _
          simp only [synthLoop, hp, if_pos hcond]
          rw [ihr hfuel1]
          congr 1
          omega
        · simp only [synthLoop, hp, if_pos hcond]
          rw [ihs]
          have hcalls : (synthLoop provider jitter maxRetries fuel (attempt + 1)).calls + 1 - 1 =
              ((synthLoop provider jitter maxRetries fuel (attempt + 1)).calls - 1) + 1 := by
            omega
          rw [hcalls, List.range_succ_eq_map, List.map_cons, List.map_map]
          refine congrArg₂ _ (by simp) ?_
          refine List.map_congr_left (fun i _ => ?_)
          simp only [Function.comp]
          congr 1
          omega
      · refine ⟨?_, ?_, ?_, ?_, ?_⟩ <;>
          simp [synthLoop, hp, hcond] <;> omega

/-- C9: `synthesize_with_retry` makes at most `max_retries` provider calls
(default 3); every non-final call failed with a retryable error (followed by
one strictly growing jittered backoff sleep per retry, of value
`2^attempt * (1 + jitter)`); the outcome of the final call — the first
success, the first non-retryable error, or a retryable error on the last
attempt — is returned or re-raised immediately with no further calls. -/
theorem C9_synthesize_with_retry (provider : Nat → Except String String)
    (jitter : Nat → ℚ) (maxRetries : Nat)
    (hj : ∀ n, 0 ≤ jitter n ∧ jitter n ≤ 1 / 2) :
    (synthesize_with_retry provider jitter maxRetries).calls ≤ maxRetries ∧
    (∀ k, k + 1 < (synthesize_with_retry provider jitter maxRetries).calls →
      ∃ e, provider k = .error e ∧ isRetryableTTSError e = true) ∧
    (1 ≤ maxRetries →
      (synthesize_with_retry provider jitter maxRetries).result =
        provider ((synthesize_with_retry provider jitter maxRetries).calls - 1)) ∧
    (synthesize_with_retry provider jitter maxRetries).sleeps =
      (List.range ((synthesize_with_retry provider jitter maxRetries).calls - 1)).map
        (ttsDelay jitter) ∧
    List.Chain' (· < ·) (synthesize_with_retry provider jitter maxRetries).sleeps := by
  have h := synthLoop_spec provider jitter maxRetries maxRetries 0 (by omega)
  obtain ⟨hc, _, hk, hr, hs⟩ := h
  have hmono : ∀ i : Nat, ttsDelay jitter i < ttsDelay jitter (i + 1) := by
    intro i
    have hpos : (0 : ℚ) < 2 ^ i := by positivity
    have h1 : ttsDelay jitter i ≤ 2 ^ i * (3 / 2) := by
      unfold ttsDelay
      have := (hj i).2
      nlinarith
    have h2 : (2 : ℚ) ^ i * (3 / 2) < 2 ^ (i + 1) * (1 + jitter (i + 1)) := by
      have := (hj (i + 1)).1
      rw [pow_succ]
      nlinarith
    calc ttsDelay jitter i ≤ 2 ^ i * (3 / 2) := h1
      _ < 2 ^ (i + 1) * (1 + jitter (i + 1)) := h2
      _ = ttsDelay jitter (i + 1) := rfl
  refine ⟨hc, by simpa using hk, by simpa using hr, by simpa using hs, ?_⟩
  have hs2 : (synthesize_with_retry provider jitter maxRetries).sleeps =
      (List.range ((synthesize_with_retry provider jitter maxRetries).calls - 1)).map
        (ttsDelay jitter) := by
    simpa using hs
  rw [hs2]
  generalize (synthesize_with_retry provider jitter maxRetries).calls - 1 = m
  cases m with
  | zero => simp
  | succ m =>
    rw [List.chain'_map, List.chain'_range_succ]
    intro i _
    exact hmono i

/-- Witness for C9: a provider that always answers HTTP 500 under the default
three attempts is called at most three times. -/
theorem C9_witness :
    (synthesize_with_retry (fun _ => .error "500 Internal Server Error")
        (fun _ => 0) 3).calls ≤ 3 :=
  (C9_synthesize_with_retry (fun _ => .error "500 Internal Server Error")
    (fun _ => 0) 3 (fun _ => ⟨le_refl 0, by norm_num⟩)).1

theorem digitFacts : ∀ c ∈ digitChars, c.isDigit = true ∧ isJsonWs c = false ∧
    c ≠ '\x7b' ∧ c ≠ '\x7d' ∧ c ≠ '[' ∧ c ≠ ']' ∧ c ≠ ',' ∧ c ≠ '\\' ∧
    c ≠ '\"' ∧ c ≠ '-' := by decide

theorem natChars_mem (n : Nat) : ∀ c ∈ natChars n, c ∈ digitChars := by
  induction n using Nat.strong_induction_on with
  | _ n ih =>
    rw [natChars]
    split
    · intro c hc
      simp only [List.mem_singleton] at hc
      subst hc
      rename_i h
      interval_cases n <;> decide
    · intro c hc
      rename_i h
      rcases List.mem_append.mp hc with h1 | h1
      · exact ih (n / 10) (Nat.div_lt_self (by omega) (by omega)) c h1
      · simp only [List.mem_singleton] at h1
        subst h1
        have hm : n % 10 < 10 := Nat.mod_lt _ (by omega)
        set m := n % 10 with hmdef
        interval_cases m <;> decide

theorem natChars_ne_nil (n : Nat) : natChars n ≠ [] := by
  rw [natChars]
  split
  · simp
  · simp

theorem digitsToNat_append_last (ds : List Char) (c : Char) :
    digitsToNat (ds ++ [c]) = digitsToNat ds * 10 + digitVal c := by
  simp [digitsToNat, List.foldl_append]

theorem digitsToNat_natChars (n : Nat) : digitsToNat (natChars n) = n := by
  induction n using Nat.strong_induction_on with
  | _ n ih =>
    rw [natChars]
    split
    · rename_i h
      show digitsToNat [digitChar n] = n
      have : digitVal (digitChar n) = n := by interval_cases n <;> decide
      simp [digitsToNat, this]
    · rename_i h
      rw [digitsToNat_append_last, ih (n / 10) (Nat.div_lt_self (by omega) (by omega))]
      have hm : n % 10 < 10 := Nat.mod_lt _ (by omega)
      have : digitVal (digitChar (n % 10)) = n % 10 := by
        set m := n % 10 with hmdef
        interval_cases m <;> decide
      omega

theorem takeWhile_append_of_all {p : Char → Bool} :
    ∀ {A rest : List Char}, (∀ a ∈ A, p a = true) →
      (match rest with | [] => True | c :: _ => p c = false) →
      (A ++ rest).takeWhile p = A ∧ (A ++ rest).dropWhile p = rest := by
  intro A
  induction A with
  | nil =>
    intro rest _ hrest
    cases rest with
    | nil => simp
    | cons c t => simp_all [List.takeWhile, List.dropWhile]
  | cons a A ih =>
    intro rest hA hrest
    have ha : p a = true := hA a (by simp)
    have := ih (fun x hx => hA x (by simp [hx])) hrest
    simp [List.takeWhile_cons, List.dropWhile_cons, ha, this.1, this.2]

theorem parseNum_natChars (m : Nat) (rest : List Char) (hrest : restOk rest) :
    (natChars m ++ rest).takeWhile Char.isDigit = natChars m ∧
    (natChars m ++ rest).dropWhile Char.isDigit = rest := by
  refine takeWhile_append_of_all (fun a ha => (digitFacts a (natChars_mem m a ha)).1) ?_
  cases rest with
  | nil => trivial
  | cons c t => exact hrest

theorem parseNum_intChars (n : Int) (rest : List Char) (hrest : restOk rest) :
    parseNum (intChars n ++ rest) = some (n, rest) := by
  obtain ⟨d, ds, hds⟩ : ∃ d ds, natChars n.natAbs = d :: ds := by
    cases h : natChars n.natAbs with
    | nil => exact absurd h (natChars_ne_nil _)
    | cons d ds => exact ⟨d, ds, rfl⟩
  have hsplit := parseNum_natChars n.natAbs rest hrest
  have habs : digitsToNat (d :: ds) = n.natAbs := by
    rw [← hds, digitsToNat_natChars]
  by_cases hn : n < 0
  · simp only [intChars, if_pos hn, List.cons_append]
    rw [parseNum]
    rw [hsplit.1, hsplit.2, hds]
    show some (-(digitsToNat (d :: ds) : Int), rest) = some (n, rest)
    rw [habs]
    have : -((n.natAbs : Nat) : Int) = n := by omega
    rw [this]
  · have hd : d ≠ '-' :=
      (digitFacts d (natChars_mem _ d (by rw [hds]; simp))).2.2.2.2.2.2.2.2.2
    simp only [intChars, if_neg hn]
    rw [hds] at hsplit ⊢
    simp only [List.cons_append] at hsplit ⊢
    rw [show parseNum (d :: (ds ++ rest)) =
        (match (d :: (ds ++ rest)).takeWhile Char.isDigit,
               (d :: (ds ++ rest)).dropWhile Char.isDigit with
         | [], _ => none
         | ds2, rest2 => some ((digitsToNat ds2 : Int), rest2)) from by
      rw [parseNum.eq_def]
      split
      · rename_i heq
        injection heq with h1 h2
        exact absurd h1 hd
      · rfl]
    rw [hsplit.1, hsplit.2]
    show some ((digitsToNat (d :: ds) : Int), rest) = some (n, rest)
    rw [habs]
    have : ((n.natAbs : Nat) : Int) = n := by omega
    rw [this]

theorem skipWs_cons_of_not_ws {c : Char} (h : isJsonWs c = false) (l : List Char) :
    skipWs (c :: l) = c :: l := by
  simp [skipWs, List.dropWhile_cons, h]

/-- Every dumped value starts with a non-whitespace character that is not a
closing bracket, closing brace or comma. -/
theorem dumpJson_head (v : Json) : ∃ c r, dumpJson v = c :: r ∧
    isJsonWs c = false ∧ c ≠ ']' ∧ c ≠ '\x7d' ∧ c ≠ ',' := by
  cases v with
  | null => exact ⟨'n', _, rfl, by decide, by decide, by decide, by decide⟩
  | bool b =>
    cases b with
    | true => exact ⟨'t', _, rfl, by decide, by decide, by decide, by decide⟩
    | false => exact ⟨'f', _, rfl, by decide, by decide, by decide, by decide⟩
  | num n =>
    by_cases hn : n < 0
    · exact ⟨'-', natChars n.natAbs, by simp [dumpJson, intChars, hn],
        by decide, by decide, by decide, by decide⟩
    · obtain ⟨d, ds, hds⟩ : ∃ d ds, natChars n.natAbs = d :: ds := by
        cases h : natChars n.natAbs with
        | nil => exact absurd h (natChars_ne_nil _)
        | cons d ds => exact ⟨d, ds, rfl⟩
      have hf := digitFacts d (natChars_mem n.natAbs d (by rw [hds]; simp))
      exact ⟨d, ds, by simp [dumpJson, intChars, hn, hds], hf.2.1,
        hf.2.2.2.2.2.1, hf.2.2.2.1, hf.2.2.2.2.2.2.1⟩
  | str s => exact ⟨'\"', _, rfl, by decide, by decide, by decide, by decide⟩
  | arr xs => exact ⟨'[', _, rfl, by decide, by decide, by decide, by decide⟩
  | obj kvs => exact ⟨'\x7b', _, rfl, by decide, by decide, by decide, by decide⟩

mutual
theorem jsize_le (v : Json) : jsize v ≤ (dumpJson v).length + 1 := by
  cases v with
  | null => simp [jsize, dumpJson]
  | bool b => cases b <;> simp [jsize, dumpJson]
  | num n =>
    have : 1 ≤ (natChars n.natAbs).length :=
      List.length_pos.mpr (natChars_ne_nil _)
    by_cases hn : n < 0 <;> simp [jsize, dumpJson, intChars, hn] <;> omega
  | str s => simp [jsize, dumpJson]
  | arr xs =>
    have := asize_le_inner xs
    simp only [jsize, dumpJson, List.length_cons, List.length_append]
    omega
  | obj kvs =>
    have := osize_le_inner kvs
    simp only [jsize, dumpJson, List.length_cons, List.length_append]
    omega
theorem asize_le_inner (xs : JsonArr) : asize xs ≤ (dumpArrInner xs).length + 2 := by
  cases xs with
  | nil => simp [asize, dumpArrInner]
  | cons v tl =>
    have h1 := jsize_le v
    have h2 := asize_le_tail tl
    simp only [asize, dumpArrInner, List.length_append]
    omega
theorem asize_le_tail (xs : JsonArr) : asize xs ≤ (dumpArrTail xs).length + 1 := by
  cases xs with
  | nil => simp [asize, dumpArrTail]
  | cons v tl =>
    have h1 := jsize_le v
    have h2 := asize_le_tail tl
    simp only [asize, dumpArrTail, List.length_cons, List.length_append]
    omega
theorem osize_le_inner (kvs : JsonObj) : osize kvs ≤ (dumpObjInner kvs).length + 2 := by
  cases kvs with
  | nil => simp [osize, dumpObjInner]
  | cons k v tl =>
    have h1 := jsize_le v
    have h2 := osize_le_tail tl
    simp only [osize, dumpObjInner, List.length_cons, List.length_append]
    omega
theorem osize_le_tail (kvs : JsonObj) : osize kvs ≤ (dumpObjTail kvs).length + 1 := by
  cases kvs with
  | nil => simp [osize, dumpObjTail]
  | cons k v tl =>
    have h1 := jsize_le v
    have h2 := osize_le_tail tl
    simp only [osize, dumpObjTail, List.length_cons, List.length_append]
    omega
end

theorem restOk_arrTail (tl : JsonArr) (rest : List Char) :
    restOk (dumpArrTail tl ++ ']' :: rest) := by
  cases tl with
  | nil => simp [dumpArrTail, restOk]
  | cons v tl2 => simp [dumpArrTail, restOk]

theorem restOk_objTail (tl : JsonObj) (rest : List Char) :
    restOk (dumpObjTail tl ++ '\x7d' :: rest) := by
  cases tl with
  | nil => simp [dumpObjTail, restOk]
  | cons k v tl2 => simp [dumpObjTail, restOk]

theorem parseValue_cons_ws {c : Char} (hc : isJsonWs c = true) (fuel : Nat)
    (X : List Char) : parseValue fuel (c :: X) = parseValue fuel X := by
  cases fuel with
  | zero => rfl
  | succ f =>
    simp only [parseValue]
    rw [show skipWs (c :: X) = skipWs X from by
      simp [skipWs, List.dropWhile_cons, hc]]

mutual
/-- `json.loads` inverts `json.dumps` on any value (given enough fuel and a
remainder that cannot extend a number token). -/
theorem parse_dump (v : Json) : ∀ fuel rest, jsize v ≤ fuel → restOk rest →
    parseValue fuel (dumpJson v ++ rest) = some (v, rest) := by
  cases v with
  | null =>
    intro fuel rest hsize _
    obtain ⟨f, rfl⟩ : ∃ f, fuel = f + 1 := ⟨fuel - 1, by simp [jsize] at hsize; omega⟩
    simp [dumpJson, parseValue, skipWs, isJsonWs, List.dropWhile_cons]
  | bool b =>
    intro fuel rest hsize _
    obtain ⟨f, rfl⟩ : ∃ f, fuel = f + 1 := ⟨fuel - 1, by simp [jsize] at hsize; omega⟩
    cases b <;> simp [dumpJson, parseValue, skipWs, isJsonWs, List.dropWhile_cons]
  | num n =>
    intro fuel rest hsize hrest
    obtain ⟨f, rfl⟩ : ∃ f, fuel = f + 1 := ⟨fuel - 1, by simp [jsize] at hsize; omega⟩
    have hpn := parseNum_intChars n rest hrest
    by_cases hn : n < 0
    · have hic : intChars n = '-' :: natChars n.natAbs := by simp [intChars, hn]
      rw [show dumpJson (.num n) = intChars n from rfl, hic]
      rw [hic] at hpn
      simp only [List.cons_append] at hpn ⊢
      simp [parseValue, skipWs, isJsonWs, List.dropWhile_cons, hpn]
    · obtain ⟨d, ds, hds⟩ : ∃ d ds, natChars n.natAbs = d :: ds := by
        cases h : natChars n.natAbs with
        | nil => exact absurd h (natChars_ne_nil _)
        | cons d ds => exact ⟨d, ds, rfl⟩
      have hf := digitFacts d (natChars_mem n.natAbs d (by rw [hds]; simp))
      have hic : intChars n = d :: ds := by simp [intChars, hn, hds]
      rw [show dumpJson (.num n) = intChars n from rfl, hic]
      rw [hic] at hpn
      simp only [List.cons_append] at hpn ⊢
      simp only [parseValue]
      rw [skipWs_cons_of_not_ws hf.2.1]
      simp [hf.2.2.1, hf.2.2.2.2.1, hf.2.2.2.2.2.2.2.2.1, hf.1, hpn]
  | str s =>
    intro fuel rest hsize _
    obtain ⟨f, rfl⟩ : ∃ f, fuel = f + 1 := ⟨fuel - 1, by simp [jsize] at hsize; omega⟩
    have hps := parseStrBody_escChars s rest
    show parseValue (f + 1) (('\"' :: escChars s ++ ['\"']) ++ rest) = some (.str s, rest)
    simp only [List.cons_append, List.append_assoc, List.singleton_append]
    simp [parseValue, skipWs, isJsonWs, List.dropWhile_cons, hps]
  | arr xs =>
    intro fuel rest hsize _
    obtain ⟨f, rfl⟩ : ∃ f, fuel = f + 1 := ⟨fuel - 1, by simp [jsize] at hsize; omega⟩
    have hxs : asize xs ≤ f := by simp [jsize] at hsize; omega
    have hinner := parse_dump_arrInner xs f rest hxs
    show parseValue (f + 1) (('[' :: dumpArrInner xs ++ [']']) ++ rest) = some (.arr xs, rest)
    simp only [List.cons_append, List.append_assoc, List.singleton_append]
    simp [parseValue, skipWs, isJsonWs, List.dropWhile_cons, hinner]
  | obj kvs =>
    intro fuel rest hsize _
    obtain ⟨f, rfl⟩ : ∃ f, fuel = f + 1 := ⟨fuel - 1, by simp [jsize] at hsize; omega⟩
    have hkvs : osize kvs ≤ f := by simp [jsize] at hsize; omega
    have hinner := parse_dump_objInner kvs f rest hkvs
    show parseValue (f + 1) (('\x7b' :: dumpObjInner kvs ++ ['\x7d']) ++ rest) =
      some (.obj kvs, rest)
    simp only [List.cons_append, List.append_assoc, List.singleton_append]
    simp [parseValue, skipWs, isJsonWs, List.dropWhile_cons, hinner]

theorem parse_dump_arrInner (xs : JsonArr) : ∀ fuel rest, asize xs ≤ fuel →
    parseArrRest fuel (dumpArrInner xs ++ ']' :: rest) = some (xs, rest) := by
  cases xs with
  | nil =>
    intro fuel rest h
    obtain ⟨f, rfl⟩ : ∃ f, fuel = f + 1 := ⟨fuel - 1, by simp [asize] at h; omega⟩
    simp [dumpArrInner, parseArrRest, skipWs, isJsonWs, List.dropWhile_cons]
  | cons v tl =>
    intro fuel rest h
    obtain ⟨f, rfl⟩ : ∃ f, fuel = f + 1 := ⟨fuel - 1, by simp [asize] at h; omega⟩
    simp only [asize] at h
    have hv : jsize v ≤ f := by
      have := Nat.max_le.mp (show max (jsize v) (asize tl) ≤ f by omega)
      exact this.1
    have htl : asize tl ≤ f := by
      have := Nat.max_le.mp (show max (jsize v) (asize tl) ≤ f by omega)
      exact this.2
    obtain ⟨c, r, hdump, hws, hbr, _, _⟩ := dumpJson_head v
    have hpv : parseValue f (c :: (r ++ (dumpArrTail tl ++ ']' :: rest))) =
        some (v, dumpArrTail tl ++ ']' :: rest) := by
      have := parse_dump v f (dumpArrTail tl ++ ']' :: rest) hv (restOk_arrTail tl rest)
      rw [hdump] at this
      simpa using this
    have htail := parse_dump_arrTail tl f rest htl
    show parseArrRest (f + 1) ((dumpJson v ++ dumpArrTail tl) ++ ']' :: rest) =
      some (.cons v tl, rest)
    rw [hdump]
    simp only [List.cons_append, List.append_assoc]
    simp only [parseArrRest]
    rw [skipWs_cons_of_not_ws hws]
    simp [hbr, hpv, htail]

theorem parse_dump_arrTail (xs : JsonArr) : ∀ fuel rest, asize xs ≤ fuel →
    parseItemsTail fuel (dumpArrTail xs ++ ']' :: rest) = some (xs, rest) := by
  cases xs with
  | nil =>
    intro fuel rest h
    obtain ⟨f, rfl⟩ : ∃ f, fuel = f + 1 := ⟨fuel - 1, by simp [asize] at h; omega⟩
    simp [dumpArrTail, parseItemsTail, skipWs, isJsonWs, List.dropWhile_cons]
  | cons v tl =>
    intro fuel rest h
    obtain ⟨f, rfl⟩ : ∃ f, fuel = f + 1 := ⟨fuel - 1, by simp [asize] at h; omega⟩
    simp only [asize] at h
    have hv : jsize v ≤ f :=
      (Nat.max_le.mp (show max (jsize v) (asize tl) ≤ f by omega)).1
    have htl : asize tl ≤ f :=
      (Nat.max_le.mp (show max (jsize v) (asize tl) ≤ f by omega)).2
    have hpv : parseValue f (' ' :: (dumpJson v ++ (dumpArrTail tl ++ ']' :: rest))) =
        some (v, dumpArrTail tl ++ ']' :: rest) := by
      rw [parseValue_cons_ws (by decide)]
      exact parse_dump v f _ hv (restOk_arrTail tl rest)
    have htail := parse_dump_arrTail tl f rest htl
    show parseItemsTail (f + 1) ((',' :: ' ' :: dumpJson v ++ dumpArrTail tl) ++ ']' :: rest) =
      some (.cons v tl, rest)
    simp only [List.cons_append, List.append_assoc]
    simp [parseItemsTail, skipWs, isJsonWs, List.dropWhile_cons, hpv, htail]

theorem parse_dump_objInner (kvs : JsonObj) : ∀ fuel rest, osize kvs ≤ fuel →
    parseObjRest fuel (dumpObjInner kvs ++ '\x7d' :: rest) = some (kvs, rest) := by
  cases kvs with
  | nil =>
    intro fuel rest h
    obtain ⟨f, rfl⟩ : ∃ f, fuel = f + 1 := ⟨fuel - 1, by simp [osize] at h; omega⟩
    simp [dumpObjInner, parseObjRest, skipWs, isJsonWs, List.dropWhile_cons]
  | cons k v tl =>
    intro fuel rest h
    obtain ⟨f, rfl⟩ : ∃ f, fuel = f + 1 := ⟨fuel - 1, by simp [osize] at h; omega⟩
    simp only [osize] at h
    have hv : jsize v ≤ f :=
      (Nat.max_le.mp (show max (jsize v) (osize tl) ≤ f by omega)).1
    have htl : osize tl ≤ f :=
      (Nat.max_le.mp (show max (jsize v) (osize tl) ≤ f by omega)).2
    have hkey := parseStrBody_escChars k
      (':' :: ' ' :: (dumpJson v ++ (dumpObjTail tl ++ '\x7d' :: rest)))
    have hpv : parseValue f (' ' :: (dumpJson v ++ (dumpObjTail tl ++ '\x7d' :: rest))) =
        some (v, dumpObjTail tl ++ '\x7d' :: rest) := by
      rw [parseValue_cons_ws (by decide)]
      exact parse_dump v f _ hv (restOk_objTail tl rest)
    have htail := parse_dump_objTail tl f rest htl
    show parseObjRest (f + 1)
      (('\"' :: escChars k ++ '\"' :: ':' :: ' ' :: dumpJson v ++ dumpObjTail tl) ++
        '\x7d' :: rest) = some (.cons k v tl, rest)
    simp only [List.cons_append, List.append_assoc]
    simp [parseObjRest, skipWs, isJsonWs, List.dropWhile_cons, hkey, hpv, htail]

theorem parse_dump_objTail (kvs : JsonObj) : ∀ fuel rest, osize kvs ≤ fuel →
    parseMembersTail fuel (dumpObjTail kvs ++ '\x7d' :: rest) = some (kvs, rest) := by
  cases kvs with
  | nil =>
    intro fuel rest h
    obtain ⟨f, rfl⟩ : ∃ f, fuel = f + 1 := ⟨fuel - 1, by simp [osize] at h; omega⟩
    simp [dumpObjTail, parseMembersTail, skipWs, isJsonWs, List.dropWhile_cons]
  | cons k v tl =>
    intro fuel rest h
    obtain ⟨f, rfl⟩ : ∃ f, fuel = f + 1 := ⟨fuel - 1, by simp [osize] at h; omega⟩
    simp only [osize] at h
    have hv : jsize v ≤ f :=
      (Nat.max_le.mp (show max (jsize v) (osize tl) ≤ f by omega)).1
    have htl : osize tl ≤ f :=
      (Nat.max_le.mp (show max (jsize v) (osize tl) ≤ f by omega)).2
    have hkey := parseStrBody_escChars k
      (':' :: ' ' :: (dumpJson v ++ (dumpObjTail tl ++ '\x7d' :: rest)))
    have hpv : parseValue f (' ' :: (dumpJson v ++ (dumpObjTail tl ++ '\x7d' :: rest))) =
        some (v, dumpObjTail tl ++ '\x7d' :: rest) := by
      rw [parseValue_cons_ws (by decide)]
      exact parse_dump v f _ hv (restOk_objTail tl rest)
    have htail := parse_dump_objTail tl f rest htl
    show parseMembersTail (f + 1)
      ((',' :: ' ' :: '\"' :: escChars k ++ '\"' :: ':' :: ' ' :: dumpJson v ++
        dumpObjTail tl) ++ '\x7d' :: rest) = some (.cons k v tl, rest)
    simp only [List.cons_append, List.append_assoc]
    simp [parseMembersTail, skipWs, isJsonWs, List.dropWhile_cons, hkey, hpv, htail]
end

theorem jsonLoads_dump (v : Json) : jsonLoads (dumpJson v) = some v := by
  unfold jsonLoads
  have h := parse_dump v ((dumpJson v).length + 1) [] (jsize_le v) trivial
  rw [List.append_nil] at h
  rw [h]
  simp [skipWs]

theorem parse_candidate_dump_obj (kvs : JsonObj) :
    parse_candidate (dumpJson (.obj kvs)) = some (.obj kvs) := by
  unfold parse_candidate
  rw [jsonLoads_dump]

theorem upperFacts : ∀ c ∈ upperChars, isJsonWs c = false ∧ c ≠ '\x7b' ∧
    c ≠ '[' ∧ c ≠ '\"' ∧ (c = '-' || c.isDigit) = false ∧ c ≠ 't' ∧ c ≠ 'f' ∧
    c ≠ 'n' ∧ c ≠ '\x60' ∧ isPyWs c = false := by decide

theorem parseValue_none_of_upper (fuel : Nat) (cs : List Char) (c : Char)
    (r : List Char) (hsk : skipWs cs = c :: r) (hc : c ∈ upperChars) :
    parseValue fuel cs = none := by
  obtain ⟨_, h1, h2, h3, h4, h5, h6, h7, _, _⟩ := upperFacts c hc
  cases fuel with
  | zero => rfl
  | succ f =>
    simp only [parseValue, hsk]
    rw [if_neg h1, if_neg h2, if_neg h3, if_neg (by simp [h4]),
      if_neg (show ¬(List.take 4 (c :: r) = ['t', 'r', 'u', 'e']) from fun he =>
        h5 (List.cons.inj (show c :: List.take 3 r = ['t', 'r', 'u', 'e'] from he)).1),
      if_neg (show ¬(List.take 5 (c :: r) = ['f', 'a', 'l', 's', 'e']) from fun he =>
        h6 (List.cons.inj (show c :: List.take 4 r = ['f', 'a', 'l', 's', 'e'] from he)).1),
      if_neg (show ¬(List.take 4 (c :: r) = ['n', 'u', 'l', 'l']) from fun he =>
        h7 (List.cons.inj (show c :: List.take 3 r = ['n', 'u', 'l', 'l'] from he)).1)]

theorem parse_candidate_none_of_upper (cs : List Char) (c : Char) (r : List Char)
    (hsk : skipWs cs = c :: r) (hc : c ∈ upperChars) : parse_candidate cs = none := by
  unfold parse_candidate jsonLoads
  rw [parseValue_none_of_upper _ cs c r hsk hc]

theorem parseValue_obj_mem (fuel : Nat) (cs : List Char) (kvs : JsonObj)
    (rest : List Char) (h : parseValue fuel cs = some (.obj kvs, rest)) :
    '\x7b' ∈ cs := by
  cases fuel with
  | zero => simp [parseValue] at h
  | succ f =>
    simp only [parseValue] at h
    split at h
    · simp at h
    · rename_i c r hsk
      split_ifs at h with h1 h2 h3 h4 h5 h6 h7
      · subst h1
        have hmem : '\x7b' ∈ skipWs cs := by rw [hsk]; simp
        exact (List.dropWhile_sublist isJsonWs).subset hmem
      · rcases hpa : parseArrRest f r with _ | ⟨xs, rr⟩ <;> rw [hpa] at h <;> simp at h
      · rcases hps : parseStrBody r with _ | ⟨s2, rr⟩ <;> rw [hps] at h <;> simp at h
      · rcases hpn : parseNum (c :: r) with _ | ⟨nn, rr⟩ <;> rw [hpn] at h <;> simp at h
      all_goals simp at h

theorem parse_candidate_none_of_no_brace (cs : List Char) (h : '\x7b' ∉ cs) :
    parse_candidate cs = none := by
  unfold parse_candidate jsonLoads
  rcases hp : parseValue (cs.length + 1) cs with _ | ⟨v, rest⟩
  · rfl
  · cases v with
    | obj kvs => exact absurd (parseValue_obj_mem _ _ _ _ hp) h
    | null => by_cases hsw : skipWs rest = [] <;> simp [hsw]
    | bool b => by_cases hsw : skipWs rest = [] <;> simp [hsw]
    | num n => by_cases hsw : skipWs rest = [] <;> simp [hsw]
    | str s => by_cases hsw : skipWs rest = [] <;> simp [hsw]
    | arr xs => by_cases hsw : skipWs rest = [] <;> simp [hsw]

theorem splitAtFirstBrace_append (pre suf : List Char)
    (hpre : ∀ c ∈ pre, c ≠ '\x7b') (t : List Char) (hsuf : suf = '\x7b' :: t) :
    splitAtFirstBrace (pre ++ suf) = some (pre, suf) := by
  induction pre with
  | nil => subst hsuf; simp [splitAtFirstBrace]
  | cons c p ih =>
    have hc : c ≠ '\x7b' := hpre c (by simp)
    have := ih (fun x hx => hpre x (by simp [hx]))
    simp [splitAtFirstBrace, hc, this]

theorem splitAtFirstBrace_none (l : List Char) (h : '\x7b' ∉ l) :
    splitAtFirstBrace l = none := by
  induction l with
  | nil => rfl
  | cons c t ih =>
    have hc : c ≠ '\x7b' := fun he => h (by simp [he])
    simp [splitAtFirstBrace, hc, ih (fun hm => h (by simp [hm]))]

theorem pyStripChars_subset (l : List Char) : ∀ c ∈ pyStripChars l, c ∈ l := by
  intro c hc
  unfold pyStripChars at hc
  rw [List.mem_reverse] at hc
  have hc2 := (List.dropWhile_sublist isPyWs).subset hc
  rw [List.mem_reverse] at hc2
  exact (List.dropWhile_sublist isPyWs).subset hc2

theorem cleanedChars_subset (l : List Char) : ∀ c ∈ cleanedChars l, c ∈ l := by
  have step2 : ∀ (x : Char) (l1 : List Char),
      x ∈ (if l1.drop (l1.length - 3) = fence3Chars then
        l1.take (l1.length - 3) else l1) → x ∈ l1 := by
    intro x l1 hx
    split at hx
    · exact List.take_subset _ _ hx
    · exact hx
  have step3 : ∀ x : Char,
      x ∈ (if (pyStripChars l).take 7 = fenceJsonChars then (pyStripChars l).drop 7
        else if (pyStripChars l).take 3 = fence3Chars then (pyStripChars l).drop 3
        else pyStripChars l) → x ∈ pyStripChars l := by
    intro x hx
    split at hx
    · exact List.drop_subset _ _ hx
    · split at hx
      · exact List.drop_subset _ _ hx
      · exact hx
  intro c hc
  unfold cleanedChars at hc
  exact pyStripChars_subset l c (step3 c (step2 c _ (pyStripChars_subset _ c hc)))

theorem pyStripChars_eq_self {l : List Char}
    (h1 : match l with | [] => True | c :: _ => isPyWs c = false)
    (h2 : match l.getLast? with | some c => isPyWs c = false | none => True) :
    pyStripChars l = l := by
  have hd : l.dropWhile isPyWs = l := by
    cases l with
    | nil => rfl
    | cons c t => simp [List.dropWhile_cons, h1]
  unfold pyStripChars
  rw [hd]
  rcases hr : l.reverse with _ | ⟨d, t2⟩
  · have : l = [] := by simpa using congrArg List.reverse hr
    subst this
    rfl
  · have hld : l.getLast? = some d := by
      rw [← List.head?_reverse, hr]; rfl
    have hdws : isPyWs d = false := by
      rw [hld] at h2
      exact h2
    have hred : List.dropWhile isPyWs (d :: t2) = d :: t2 := by
      simp [List.dropWhile_cons, hdws]
    rw [hred, List.reverse_eq_iff]
    exact hr.symm

/-! ### Stepping lemmas for the balanced-brace scan -/

theorem braceScan_plain_char {c : Char} (h1 : c ≠ '\\') (h2 : c ≠ '\"')
    (h3 : c ≠ '\x7b') (h4 : c ≠ '\x7d') (rest : List Char) (depth : Int)
    (acc : List Char) :
    braceScan (c :: rest) depth false false acc =
      braceScan rest depth false false (c :: acc) := by
  simp [braceScan, h1, h2, h3, h4]

theorem braceScan_quote (rest : List Char) (depth : Int) (inStr : Bool)
    (acc : List Char) :
    braceScan ('\"' :: rest) depth inStr false acc =
      braceScan rest depth (!inStr) false ('\"' :: acc) := by
  simp [braceScan]

theorem braceScan_open (rest : List Char) (depth : Int) (acc : List Char) :
    braceScan ('\x7b' :: rest) depth false false acc =
      braceScan rest (depth + 1) false false ('\x7b' :: acc) := by
  simp [braceScan]

theorem braceScan_close {depth : Int} (h : ¬ depth - 1 = 0) (rest acc : List Char) :
    braceScan ('\x7d' :: rest) depth false false acc =
      braceScan rest (depth - 1) false false ('\x7d' :: acc) := by
  simp [braceScan, h]

theorem braceScan_close_zero {depth : Int} (h : depth - 1 = 0) (rest acc : List Char) :
    braceScan ('\x7d' :: rest) depth false false acc =
      some ('\x7d' :: acc).reverse := by
  simp [braceScan, h]

/-- The scan passes through an escaped string body without leaving string
state or touching the depth. -/
theorem braceScan_chunk_str (s : List Char) : ∀ (rest : List Char) (depth : Int)
    (acc : List Char),
    braceScan (escChars s ++ rest) depth true false acc =
      braceScan rest depth true false ((escChars s).reverse ++ acc) := by
  induction s with
  | nil => simp [escChars]
  | cons c cs ih =>
    intro rest depth acc
    by_cases h1 : c = '\"'
    · subst h1; simp [escChars, braceScan, ih]
    · by_cases h2 : c = '\\'
      · subst h2; simp [escChars, braceScan, ih]
      · by_cases h3 : c = '\n'
        · subst h3; simp [escChars, braceScan, ih]
        · by_cases h4 : c = '\t'
          · subst h4; simp [escChars, braceScan, ih]
          · by_cases h5 : c = '\r'
            · subst h5; simp [escChars, braceScan, ih]
            · by_cases h6 : c = '\x08'
              · subst h6; simp [escChars, braceScan, ih]
              · by_cases h7 : c = '\x0c'
                · subst h7; simp [escChars, braceScan, ih]
                · simp [escChars, h1, h2, h3, h4, h5, h6, h7, braceScan, ih]

/-- The scan passes through any run of characters free of backslashes,
quotes and braces. -/
theorem braceScan_chunk_plain : ∀ (chunk : List Char),
    (∀ c ∈ chunk, c ≠ '\\' ∧ c ≠ '\"' ∧ c ≠ '\x7b' ∧ c ≠ '\x7d') →
    ∀ (rest : List Char) (depth : Int) (acc : List Char),
      braceScan (chunk ++ rest) depth false false acc =
        braceScan rest depth false false (chunk.reverse ++ acc) := by
  intro chunk
  induction chunk with
  | nil => simp
  | cons c t ih =>
    intro hch rest depth acc
    obtain ⟨h1, h2, h3, h4⟩ := hch c (by simp)
    rw [List.cons_append, braceScan_plain_char h1 h2 h3 h4,
      ih (fun x hx => hch x (by simp [hx]))]
    simp

theorem intChars_plain (n : Int) : ∀ c ∈ intChars n,
    c ≠ '\\' ∧ c ≠ '\"' ∧ c ≠ '\x7b' ∧ c ≠ '\x7d' := by
  intro c hc
  have hdig : ∀ x ∈ digitChars, x ≠ '\\' ∧ x ≠ '\"' ∧ x ≠ '\x7b' ∧ x ≠ '\x7d' := by
    decide
  unfold intChars at hc
  split at hc
  · rcases List.mem_cons.mp hc with h | h
    · subst h; refine ⟨by decide, by decide, by decide, by decide⟩
    · exact hdig c (natChars_mem _ c h)
  · exact hdig c (natChars_mem _ c hc)

/-- The scan passes through the serialization of a string literal. -/
theorem braceScan_keyString (k : List Char) (rest : List Char) (depth : Int)
    (acc : List Char) :
    braceScan ('\"' :: (escChars k ++ ('\"' :: rest))) depth false false acc =
      braceScan rest depth false false
        ('\"' :: ((escChars k).reverse ++ ('\"' :: acc))) := by
  rw [braceScan_quote, Bool.not_false, braceScan_chunk_str, braceScan_quote,
    Bool.not_true]

mutual
/-- The scan passes transparently through any dumped value while the depth
stays positive. -/
theorem braceScan_value (v : Json) : ∀ (rest : List Char) (depth : Int)
    (acc : List Char), 1 ≤ depth →
    braceScan (dumpJson v ++ rest) depth false false acc =
      braceScan rest depth false false ((dumpJson v).reverse ++ acc) := by
  cases v with
  | null =>
    intro rest depth acc _
    exact braceScan_chunk_plain _ (by decide) rest depth acc
  | bool b =>
    intro rest depth acc _
    cases b <;> exact braceScan_chunk_plain _ (by decide) rest depth acc
  | num n =>
    intro rest depth acc _
    exact braceScan_chunk_plain _ (intChars_plain n) rest depth acc
  | str s =>
    intro rest depth acc _
    show braceScan (('\"' :: escChars s ++ ['\"']) ++ rest) depth false false acc = _
    simp only [List.cons_append, List.append_assoc, List.singleton_append]
    rw [braceScan_keyString]
    simp [dumpJson, List.reverse_append]
  | arr xs =>
    intro rest depth acc hd
    show braceScan (('[' :: dumpArrInner xs ++ [']']) ++ rest) depth false false acc = _
    simp only [List.cons_append, List.append_assoc, List.singleton_append]
    rw [braceScan_plain_char (by decide) (by decide) (by decide) (by decide),
      braceScan_arrInner xs _ _ _ hd,
      braceScan_plain_char (by decide) (by decide) (by decide) (by decide)]
    simp [dumpJson, List.reverse_append]
  | obj kvs =>
    intro rest depth acc hd
    show braceScan (('\x7b' :: dumpObjInner kvs ++ ['\x7d']) ++ rest) depth false false acc = _
    simp only [List.cons_append, List.append_assoc, List.singleton_append]
    rw [braceScan_open, braceScan_objInner kvs _ _ _ (by omega),
      braceScan_close (by omega)]
    have hdep : depth + 1 - 1 = depth := by omega
    rw [hdep]
    simp [dumpJson, List.reverse_append]

theorem braceScan_arrInner (xs : JsonArr) : ∀ (rest : List Char) (depth : Int)
    (acc : List Char), 1 ≤ depth →
    braceScan (dumpArrInner xs ++ rest) depth false false acc =
      braceScan rest depth false false ((dumpArrInner xs).reverse ++ acc) := by
  cases xs with
  | nil => intro rest depth acc _; simp [dumpArrInner]
  | cons v tl =>
    intro rest depth acc hd
    show braceScan ((dumpJson v ++ dumpArrTail tl) ++ rest) depth false false acc = _
    simp only [List.append_assoc]
    rw [braceScan_value v _ _ _ hd, braceScan_arrTail tl _ _ _ hd]
    simp [dumpArrInner, List.reverse_append]

theorem braceScan_arrTail (xs : JsonArr) : ∀ (rest : List Char) (depth : Int)
    (acc : List Char), 1 ≤ depth →
    braceScan (dumpArrTail xs ++ rest) depth false false acc =
      braceScan rest depth false false ((dumpArrTail xs).reverse ++ acc) := by
  cases xs with
  | nil => intro rest depth acc _; simp [dumpArrTail]
  | cons v tl =>
    intro rest depth acc hd
    show braceScan ((',' :: ' ' :: dumpJson v ++ dumpArrTail tl) ++ rest)
      depth false false acc = _
    simp only [List.cons_append, List.append_assoc]
    rw [braceScan_plain_char (by decide) (by decide) (by decide) (by decide),
      braceScan_plain_char (by decide) (by decide) (by decide) (by decide),
      braceScan_value v _ _ _ hd, braceScan_arrTail tl _ _ _ hd]
    simp [dumpArrTail, List.reverse_append]

theorem braceScan_objInner (kvs : JsonObj) : ∀ (rest : List Char) (depth : Int)
    (acc : List Char), 1 ≤ depth →
    braceScan (dumpObjInner kvs ++ rest) depth false false acc =
      braceScan rest depth false false ((dumpObjInner kvs).reverse ++ acc) := by
  cases kvs with
  | nil => intro rest depth acc _; simp [dumpObjInner]
  | cons k v tl =>
    intro rest depth acc hd
    show braceScan (('\"' :: escChars k ++ '\"' :: ':' :: ' ' :: dumpJson v ++
      dumpObjTail tl) ++ rest) depth false false acc = _
    simp only [List.cons_append, List.append_assoc]
    rw [braceScan_keyString,
      braceScan_plain_char (by decide) (by decide) (by decide) (by decide),
      braceScan_plain_char (by decide) (by decide) (by decide) (by decide),
      braceScan_value v _ _ _ hd, braceScan_objTail tl _ _ _ hd]
    simp [dumpObjInner, List.reverse_append]

theorem braceScan_objTail (kvs : JsonObj) : ∀ (rest : List Char) (depth : Int)
    (acc : List Char), 1 ≤ depth →
    braceScan (dumpObjTail kvs ++ rest) depth false false acc =
      braceScan rest depth false false ((dumpObjTail kvs).reverse ++ acc) := by
  cases kvs with
  | nil => intro rest depth acc _; simp [dumpObjTail]
  | cons k v tl =>
    intro rest depth acc hd
    show braceScan ((',' :: ' ' :: '\"' :: escChars k ++ '\"' :: ':' :: ' ' ::
      dumpJson v ++ dumpObjTail tl) ++ rest) depth false false acc = _
    simp only [List.cons_append, List.append_assoc]
    rw [braceScan_plain_char (by decide) (by decide) (by decide) (by decide),
      braceScan_plain_char (by decide) (by decide) (by decide) (by decide),
      braceScan_keyString,
      braceScan_plain_char (by decide) (by decide) (by decide) (by decide),
      braceScan_plain_char (by decide) (by decide) (by decide) (by decide),
      braceScan_value v _ _ _ hd, braceScan_objTail tl _ _ _ hd]
    simp [dumpObjTail, List.reverse_append]
end

/-- Started at the opening brace of a dumped object, the scan returns exactly
the dumped object as the candidate slice. -/
theorem braceScan_top (kvs : JsonObj) (rest : List Char) :
    braceScan (dumpJson (.obj kvs) ++ rest) 0 false false [] =
      some (dumpJson (.obj kvs)) := by
  show braceScan (('\x7b' :: dumpObjInner kvs ++ ['\x7d']) ++ rest) 0 false false [] = _
  simp only [List.cons_append, List.append_assoc, List.singleton_append]
  rw [braceScan_open, braceScan_objInner kvs _ _ _ (by omega),
    braceScan_close_zero (by omega)]
  simp [dumpJson, List.reverse_append]

theorem allowedProse_no_brace {c : Char} (h : allowedProseChar c = true) :
    c ≠ '\x7b' := by
  intro he; subst he; exact absurd h (by decide)

theorem alpha_not_pyWs {c : Char} (h : c.isAlpha = true) : isPyWs c = false := by
  by_contra hne
  have hw : isPyWs c = true := by revert hne; cases isPyWs c <;> simp
  have hw2 : ((((c = ' ' ∨ c = '\t') ∨ c = '\n') ∨ c = '\x0d') ∨ c = '\x0b') ∨
      c = '\x0c' := by
    simpa [isPyWs, Bool.or_eq_true, decide_eq_true_eq] using hw
  rcases hw2 with ((((h1 | h1) | h1) | h1) | h1) | h1 <;>
    (subst h1; exact absurd h (by decide))

theorem getLast?_append_right {A B : List Char} (h : B ≠ []) :
    (A ++ B).getLast? = B.getLast? := by
  rw [← List.head?_reverse, List.reverse_append, ← List.head?_reverse]
  rcases hB : B.reverse with _ | ⟨x, xs⟩
  · exact absurd (by simpa using congrArg List.reverse hB) h
  · simp

/-- The no-`\x7b` half of the tolerant-extraction contract: no opening brace
anywhere means no result, via every stage of the extractor. -/
theorem extract_json_none_of_no_brace (s : String) (h : '\x7b' ∉ s.toList) :
    extract_json s = none := by
  unfold extract_json
  by_cases hs : s = ""
  · rw [if_pos hs]
  · rw [if_neg hs]
    have hncl : '\x7b' ∉ cleanedChars s.toList :=
      fun hm => h (cleanedChars_subset _ _ hm)
    simp only [parse_candidate_none_of_no_brace _ h,
      parse_candidate_none_of_no_brace _ hncl, splitAtFirstBrace_none _ hncl]

/-- C6: a JSON object serialized by `json.dumps`, wrapped in a
```` ```json ```` fenced block and surrounded by prose, is recovered exactly
by the tolerant extractor (via the balanced-brace scan); and any input
containing no `\x7b` yields no result — and, the extractor being a total
function, never raises. -/
theorem C6_tolerant_extraction_roundtrip (kvs : JsonObj) (p1 p2 : String)
    (h1 : proseOk p1 = true) (h2 : proseOk p2 = true) :
    extract_json (p1 ++ "```json\n" ++ String.mk (dumpJson (Json.obj kvs)) ++
        "\n```" ++ p2) = some (Json.obj kvs) ∧
    ∀ s : String, '\x7b' ∉ s.toList → extract_json s = none := by
  refine ⟨?_, extract_json_none_of_no_brace⟩
  -- decompose the prose hypotheses
  unfold proseOk at h1 h2
  rcases hp1 : p1.toList with _ | ⟨c1, t1⟩
  · rw [hp1] at h1; simp at h1
  rcases hp2 : p2.toList with _ | ⟨c2, t2⟩
  · rw [hp2] at h2; simp at h2
  rw [hp1] at h1
  rw [hp2] at h2
  simp only [Bool.and_eq_true, decide_eq_true_eq] at h1 h2
  obtain ⟨⟨hup1, hall1⟩, hlast1⟩ := h1
  obtain ⟨⟨hup2, hall2⟩, hlast2⟩ := h2
  rcases hgl2 : p2.toList.getLast? with _ | d2
  · rw [hp2] at hgl2; rw [hgl2] at hlast2; simp at hlast2
  rw [hp2] at hgl2
  rw [hgl2] at hlast2
  obtain ⟨hupws, hup7b, _, _, _, _, _, _, hup60, hupPy⟩ := upperFacts c1 hup1
  -- names for the pieces
  set D := dumpJson (Json.obj kvs) with hD
  have hDcons : D = '\x7b' :: (dumpObjInner kvs ++ ['\x7d']) := by
    rw [hD]; rfl
  set L : List Char := p1.toList ++ (fence8Chars ++ (D ++ (nl4Chars ++ p2.toList)))
    with hL
  have hT2 : (p1 ++ "```json\n" ++ String.mk D ++ "\n```" ++ p2).toList = L := by
    rw [hL]
    show (p1 ++ "```json\n" ++ String.mk D ++ "\n```" ++ p2).data = _
    simp only [String.data_append]
    show p1.data ++ "```json\n".data ++ D ++ "\n```".data ++ p2.data = _
    have e1 : "```json\n".data = fence8Chars := rfl
    have e2 : "\n```".data = nl4Chars := rfl
    rw [e1, e2]
    show p1.toList ++ fence8Chars ++ D ++ nl4Chars ++ p2.toList = _
    simp [List.append_assoc]
  have hLcons : L = c1 :: (t1 ++ (fence8Chars ++ (D ++ (nl4Chars ++ p2.toList)))) := by
    rw [hL, hp1]; rfl
  -- `text` is non-empty
  have hTne : (p1 ++ "```json\n" ++ String.mk D ++ "\n```" ++ p2) ≠ "" := by
    intro he
    have h0 := hT2.symm.trans (congrArg String.toList he)
    rw [hLcons] at h0
    simp [String.toList] at h0
  -- the direct parse fails at the prose's uppercase first character
  have hskip : skipWs L = c1 :: (t1 ++ (fence8Chars ++ (D ++ (nl4Chars ++ p2.toList)))) := by
    rw [hLcons]
    exact skipWs_cons_of_not_ws hupws _
  have hdir : parse_candidate L = none :=
    parse_candidate_none_of_upper L c1 _ hskip hup1
  -- stripping is the identity on `L`
  have hp2d : p2.data = c2 :: t2 := hp2
  have hre : L = (p1.toList ++ fence8Chars ++ D ++ nl4Chars) ++ p2.toList := by
    rw [hL]; simp [List.append_assoc]
  have hlastL : L.getLast? = some d2 := by
    rw [hre, getLast?_append_right (by simp [hp2d]), hp2]
    exact hgl2
  have hstrip : pyStripChars L = L := by
    apply pyStripChars_eq_self
    · rw [hLcons]; exact hupPy
    · rw [hlastL]; exact alpha_not_pyWs hlast2
  -- the fence-stripping tests all fail
  have htake7 : ¬ L.take 7 = fenceJsonChars := by
    rw [hLcons]
    intro he
    exact absurd (List.cons.inj (show c1 :: _ = fenceJsonChars from he)).1 hup60
  have htake3 : ¬ L.take 3 = fence3Chars := by
    rw [hLcons]
    intro he
    exact absurd (List.cons.inj (show c1 :: _ = fence3Chars from he)).1 hup60
  have hdropend : ¬ L.drop (L.length - 3) = fence3Chars := by
    intro he
    have hne : L.drop (L.length - 3) ≠ [] := by rw [he]; simp [fence3Chars]
    have hgl : L.getLast? = (L.drop (L.length - 3)).getLast? := by
      conv_lhs => rw [← List.take_append_drop (L.length - 3) L]
      exact getLast?_append_right hne
    rw [he] at hgl
    rw [hlastL] at hgl
    have : d2 = '\x60' := by
      simpa [fence3Chars] using hgl
    subst this
    exact absurd hlast2 (by decide)
  have hclean : cleanedChars L = L := by
    simp only [cleanedChars]
    rw [hstrip]
    rw [if_neg htake7, if_neg htake3, if_neg hdropend, hstrip]
  -- the first brace of `L` opens the dumped object
  have hpre : ∀ c ∈ p1.toList ++ fence8Chars, c ≠ '\x7b' := by
    intro c hc
    rcases List.mem_append.mp hc with hm | hm
    · have hall1' : p1.toList.all allowedProseChar = true := by rw [hp1]; exact hall1
      exact allowedProse_no_brace (List.all_eq_true.mp hall1' c hm)
    · have hf : ∀ x ∈ fence8Chars, x ≠ '\x7b' := by decide
      exact hf c hm
  have hsplitL : splitAtFirstBrace L =
      some (p1.toList ++ fence8Chars, D ++ (nl4Chars ++ p2.toList)) := by
    have hsuf : D ++ (nl4Chars ++ p2.toList) =
        '\x7b' :: ((dumpObjInner kvs ++ ['\x7d']) ++ (nl4Chars ++ p2.toList)) := by
      rw [hDcons]; rfl
    have := splitAtFirstBrace_append (p1.toList ++ fence8Chars)
      (D ++ (nl4Chars ++ p2.toList)) hpre _ hsuf
    rw [hL, ← List.append_assoc]
    exact this
  -- the scan returns the dumped object, which parses as the original dict
  have hscan : braceScan (D ++ (nl4Chars ++ p2.toList)) 0 false false [] =
      some D := braceScan_top kvs _
  have hcand : parse_candidate D = some (Json.obj kvs) :=
    parse_candidate_dump_obj kvs
  -- assemble
  unfold extract_json
  rw [if_neg hTne]
  simp only [hT2, hdir, hclean, hsplitL, hscan, hcand]

/-- Witness for C6 on a concrete one-member object wrapped in prose. -/
theorem C6_witness :
    proseOk "Here is the JSON you asked for" = true ∧
    proseOk "Hope that helps" = true ∧
    extract_json ("Here is the JSON you asked for" ++ "```json\n" ++
        String.mk (dumpJson (Json.obj (.cons ['o', 'k'] (.bool true) .nil))) ++
        "\n```" ++ "Hope that helps") =
      some (Json.obj (.cons ['o', 'k'] (.bool true) .nil)) :=
  ⟨by decide, by decide,
    (C6_tolerant_extraction_roundtrip (.cons ['o', 'k'] (.bool true) .nil)
      "Here is the JSON you asked for" "Hope that helps"
      (by decide) (by decide)).1⟩

/-- C10: the tolerant extractor only ever returns a JSON dict (every parse
goes through the `isinstance(parsed, dict)` filter), and a valid non-object
document such as `[1, 2]` yields no result. -/
theorem C10_extract_json_dict_or_none :
    (∀ (s : String) (v : Json), extract_json s = some v →
      ∃ kvs, v = Json.obj kvs) ∧
    extract_json "[1, 2]" = none := by
  constructor
  · have hpc : ∀ cs w, parse_candidate cs = some w → ∃ kvs, w = Json.obj kvs := by
      intro cs w hw
      unfold parse_candidate at hw
      split at hw
      · exact ⟨_, (Option.some.inj hw).symm⟩
      · simp at hw
    intro s v h
    simp only [extract_json] at h
    split at h
    · simp at h
    · split at h
      · rename_i o heq
        obtain ⟨kvs, rfl⟩ := hpc _ _ heq
        exact ⟨kvs, (Option.some.inj h).symm⟩
      · split at h
        · rename_i o heq
          obtain ⟨kvs, rfl⟩ := hpc _ _ heq
          exact ⟨kvs, (Option.some.inj h).symm⟩
        · split at h
          · simp at h
          · split at h
            · simp at h
            · exact hpc _ _ h
  · rfl

end DocGen

